import Mathlib

/-!
# UK trading tax calculator — verification of the matching engine

Shallow embedding of the matching engine of `taxcalcdict.py`
(`TaxCalcDict`, `TaxCalcElement`) together with the trade-ledger and
match-group operations it calls.  The collaborating modules
(`tradelist.py`, `taxcalctradegroup.py`, `utils.py`) are not part of the
source tree; the operations taken from them are modelled from the
specification and are marked as such in their doc comments.

Conventions:
* quantities, prices and commissions are rationals (`ℚ`); a trade's
  quantity is signed (sign encodes buy/sell);
* dates are serial day numbers (`Nat`, days since 1970-01-01);
* the mutable trade ledger becomes explicit state passing over
  `List Trade`; Python exceptions become `Except MatchErr`;
* `while` loops become fuel-indexed recursion, with the fuel chosen so
  that it never runs out (each pass through a loop body either removes a
  trade from the ledger or completes the group, so `length + 1` passes
  always suffice).
-/

/-- Trade type classifier: an opening or a closing trade. -/
inductive TType where
  | Open : TType
  | Close : TType
deriving DecidableEq, Repr

/-- Modelled from the spec: one execution record (`Trade` of the missing
`tradelist.py`) — instrument code, date (serial day number), signed
quantity, price, commission and the Open/Close classifier. -/
structure Trade where
  Code : String
  Date : Nat
  quantity : ℚ
  price : ℚ
  commission : ℚ
  tradetype : TType
deriving DecidableEq, Repr

/-- Modelled from the spec: `TradeList.check_same_code` of the missing
`tradelist.py` — all trades of a ledger share one instrument code. -/
def check_same_code (l : List Trade) : Bool :=
  match l with
  | [] => true
  | t :: rest => rest.all (fun u => u.Code == t.Code)

/-- Modelled from the spec: `TradeList.final_position` of the missing
`tradelist.py` — signed sum of the remaining quantities. -/
def final_position (l : List Trade) : ℚ :=
  (l.map (fun t => t.quantity)).sum

/-- Two trades are on opposite sides when their signed quantities have
opposite signs. -/
def is_opposite (ref t : Trade) : Bool :=
  decide (t.quantity * ref.quantity < 0)

/-- One step of the date-minimising fold: keep the incumbent unless the
new pair is strictly earlier (so ties keep the first position). -/
def minDateStep (best : Option (Nat × Trade)) (it : Nat × Trade) : Option (Nat × Trade) :=
  match best with
  | none => some it
  | some b => if it.2.Date < b.2.Date then some it else some b

/-- Helper for the date-minimising lookups of the missing `tradelist.py`:
among the trades satisfying `p`, the (index, trade) pair with the
earliest date, ties broken by the first position in the ledger. -/
def bestByDate (p : Trade → Bool) (l : List Trade) : Option (Nat × Trade) :=
  (l.enum.filter (fun it => p it.2)).foldl minDateStep none

/-- Modelled from the spec: `TradeList.pop_earliest_closing_trade` of the
missing `tradelist.py` — remove and return the chronologically earliest
trade whose type is Close; `none` if no closing trade remains. -/
def pop_earliest_closing_trade (l : List Trade) : Option (Trade × List Trade) :=
  (bestByDate (fun t => t.tradetype == TType.Close) l).map
    (fun it => (it.2, l.eraseIdx it.1))

/-- Modelled from the spec: `TradeList.idx_of_last_trade_same_day` of the
missing `tradelist.py` — the index of the most recently added remaining
trade dated on the reference's day and on the opposite side. -/
def idx_of_last_trade_same_day (l : List Trade) (ref : Trade) : Option Nat :=
  ((l.enum.filter (fun it => it.2.Date == ref.Date && is_opposite ref it.2)).getLast?).map
    (fun it => it.1)

/-- Modelled from the spec: `TradeList.idx_of_first_trade_next_30days` of
the missing `tradelist.py` — the index of the earliest-dated opposite-side
trade dated strictly after the reference and within 30 calendar days. -/
def idx_of_first_trade_next_30days (l : List Trade) (ref : Trade) : Option Nat :=
  (bestByDate
      (fun t => is_opposite ref t && decide (ref.Date < t.Date) &&
        decide (t.Date ≤ ref.Date + 30)) l).map (fun it => it.1)

/-- Modelled from the spec: `TradeList.idx_of_trades_before_datetime` of
the missing `tradelist.py` — indices of all remaining trades dated
strictly before the reference (any side). -/
def idx_of_trades_before_datetime (l : List Trade) (ref : Trade) : List Nat :=
  (l.enum.filter (fun it => decide (it.2.Date < ref.Date))).map (fun it => it.1)

/-- Scale a trade's quantity and commission by a fraction (the splitting
operation of the spec's Trade: commission apportioned pro-rata to
quantity; code, date, price and type unchanged). -/
def scaleTrade (t : Trade) (f : ℚ) : Trade :=
  { t with quantity := t.quantity * f, commission := t.commission * f }

/-- Modelled from the spec: `TradeList.partial_pop_idx` of the missing
`tradelist.py` — remove up to `maxQ` of quantity from the trade at `idx`.
If the trade's magnitude exceeds `maxQ` it is split: the consumed portion
(with pro-rata commission) is returned and the remainder stays at the
same position; otherwise the whole trade is removed and returned. -/
def partial_pop_idx (l : List Trade) (idx : Nat) (maxQ : ℚ) :
    Option (Trade × List Trade) :=
  match l.get? idx with
  | none => none
  | some t =>
    if |t.quantity| ≤ maxQ then
      some (t, l.eraseIdx idx)
    else
      let frac := maxQ / |t.quantity|
      some (scaleTrade t frac, l.set idx (scaleTrade t (1 - frac)))

/-- Errors of the matching run: the ArithmeticError-class failure of the
proportionate pop, and the fatal unmatchable-closing-trade abort, which
reports the unmatched quantity and the offending closing trade. -/
inductive MatchErr where
  | insufficientLiquidity : MatchErr
  | unmatchable : ℚ → Trade → MatchErr
deriving DecidableEq, Repr

/-- Modelled from the spec: `TradeList._proportionate_pop_idx` of the
missing `tradelist.py` — consume exactly `target` in aggregate from the
trades at `idxs`, apportioned pro-rata so every contributing lot shrinks
by the same fraction; fails when the available total is below `target`.
A lot consumed in full (fraction one) is removed from the ledger. -/
def proportionate_pop_idx (l : List Trade) (idxs : List Nat) (target : ℚ) :
    Except MatchErr (List Trade × List Trade) :=
  let total : ℚ := (idxs.map (fun i =>
    match l.get? i with
    | some t => |t.quantity|
    | none => 0)).sum
  if total < target then .error .insufficientLiquidity
  else
    let frac := target / total
    let popped := idxs.filterMap (fun i => (l.get? i).map (fun t => scaleTrade t frac))
    let remaining := l.enum.filterMap (fun it =>
      if it.1 ∈ idxs then
        (if frac = 1 then none else some (scaleTrade it.2 (1 - frac)))
      else some it.2)
    .ok (popped, remaining)

/-- Modelled from the spec: `TaxCalcTradeGroup` of the missing
`taxcalctradegroup.py` — one closing trade together with the same-day,
within-30-days and pooled (S104) pieces matched against it. -/
structure TaxCalcTradeGroup where
  closing_trade : Trade
  same_day : List Trade
  within_month : List Trade
  s104 : List Trade
deriving DecidableEq, Repr

/-- A fresh group holding just the closing trade. -/
def TaxCalcTradeGroup.init (t : Trade) : TaxCalcTradeGroup :=
  ⟨t, [], [], []⟩

/-- Total magnitude of a list of trades. -/
def sum_abs_qty (l : List Trade) : ℚ :=
  (l.map (fun t => |t.quantity|)).sum

/-- Modelled from the spec: the matched magnitude of a group — the sum of
quantities (in magnitude) across `same_day`, `within_month`, `s104`. -/
def TaxCalcTradeGroup.count_matched (g : TaxCalcTradeGroup) : ℚ :=
  sum_abs_qty g.same_day + sum_abs_qty g.within_month + sum_abs_qty g.s104

/-- Modelled from the spec: `TaxCalcTradeGroup.count_unmatched` of the
missing `taxcalctradegroup.py` — the closing trade's magnitude less the
matched magnitude. -/
def TaxCalcTradeGroup.count_unmatched (g : TaxCalcTradeGroup) : ℚ :=
  |g.closing_trade.quantity| - g.count_matched

/-- Modelled from the spec: `TaxCalcTradeGroup.is_unmatched` of the
missing `taxcalctradegroup.py` — true while matched quantity is still
missing.  The matching algorithm only ever consumes up to the remaining
unmatched quantity (proved below), so on every reachable group this
coincides with the spec's "sum differs from the closing magnitude". -/
def TaxCalcTradeGroup.is_unmatched (g : TaxCalcTradeGroup) : Bool :=
  decide (0 < g.count_unmatched)

/-- The same-day `while` loop inside `TaxCalcElement.match_for_group`
(`taxcalcdict.py` lines 242–252), fuel-indexed: while the group is
unmatched, look up the same-day opposite-side trade, partially pop up to
the remaining unmatched quantity, and append it to `same_day`; break when
no such trade exists.  Each pass removes a trade or completes the group,
so fuel `length + 1` (supplied by `same_day_loop`) never runs out. -/
def same_day_go (ref : Trade) :
    Nat → TaxCalcTradeGroup → List Trade → TaxCalcTradeGroup × List Trade
  | 0, g, l => (g, l)
  | fuel + 1, g, l =>
    if g.is_unmatched then
      match idx_of_last_trade_same_day l ref with
      | none => (g, l)
      | some tradeidx =>
        match partial_pop_idx l tradeidx g.count_unmatched with
        | none => (g, l)
        | some (popped_trade, l') =>
          same_day_go ref fuel { g with same_day := g.same_day ++ [popped_trade] } l'
    else (g, l)

/-- The same-day tier of `match_for_group`, run to completion. -/
def same_day_loop (ref : Trade) (g : TaxCalcTradeGroup) (l : List Trade) :
    TaxCalcTradeGroup × List Trade :=
  same_day_go ref (l.length + 1) g l

/-- The 30-day-rule `while` loop inside `TaxCalcElement.match_for_group`
(`taxcalcdict.py` lines 255–265), fuel-indexed exactly as the same-day
loop: pops the earliest opposite-side trade within the 30 days after the
reference into `within_month`. -/
def within_month_go (ref : Trade) :
    Nat → TaxCalcTradeGroup → List Trade → TaxCalcTradeGroup × List Trade
  | 0, g, l => (g, l)
  | fuel + 1, g, l =>
    if g.is_unmatched then
      match idx_of_first_trade_next_30days l ref with
      | none => (g, l)
      | some tradeidx =>
        match partial_pop_idx l tradeidx g.count_unmatched with
        | none => (g, l)
        | some (popped_trade, l') =>
          within_month_go ref fuel { g with within_month := g.within_month ++ [popped_trade] } l'
    else (g, l)

/-- The 30-day tier of `match_for_group`, run to completion. -/
def within_month_loop (ref : Trade) (g : TaxCalcTradeGroup) (l : List Trade) :
    TaxCalcTradeGroup × List Trade :=
  within_month_go ref (l.length + 1) g l

/-- The S104 (pooled) step of `TaxCalcElement.match_for_group`
(`taxcalcdict.py` lines 271–281): if the group is still unmatched,
collect all trades dated before the closing trade and, when any exist,
consume the remaining unmatched quantity from them proportionately. -/
def s104_step (ref : Trade) (g : TaxCalcTradeGroup) (l : List Trade) :
    Except MatchErr (TaxCalcTradeGroup × List Trade) :=
  if g.is_unmatched then
    let tradeidxlist := idx_of_trades_before_datetime l ref
    if 0 < tradeidxlist.length then
      match proportionate_pop_idx l tradeidxlist g.count_unmatched with
      | .error e => .error e
      | .ok (popped_trades, l') => .ok ({ g with s104 := popped_trades }, l')
    else .ok (g, l)
  else .ok (g, l)

/-- The pooled step followed by the final guard of
`TaxCalcElement.match_for_group` (`taxcalcdict.py` lines 271–288): after
the pooled tier, a still-unmatched group is a fatal condition reported
with the unmatched quantity and the offending closing trade. -/
def finalize_group (ref : Trade) (g : TaxCalcTradeGroup) (l : List Trade) :
    Except MatchErr (TaxCalcTradeGroup × List Trade) :=
  match s104_step ref g l with
  | .error e => .error e
  | .ok (g3, l3) =>
    if g3.is_unmatched then .error (.unmatchable g3.count_unmatched g3.closing_trade)
    else .ok (g3, l3)

/-- `TaxCalcElement.match_for_group` (`taxcalcdict.py` lines 228–288):
build a group for the closing trade by running, when CGT-style matching
is enabled, the same-day tier then the 30-day tier, and in every case the
pooled (S104) tier with the final unmatchable guard. -/
def match_for_group (unmatched : List Trade) (trade_to_match : Trade) (CGTcalc : Bool) :
    Except MatchErr (TaxCalcTradeGroup × List Trade) :=
  let p0 := (TaxCalcTradeGroup.init trade_to_match, unmatched)
  let p2 :=
    if CGTcalc then
      let p1 := same_day_loop trade_to_match p0.1 p0.2
      within_month_loop trade_to_match p1.1 p1.2
    else p0
  finalize_group trade_to_match p2.1 p2.2

/-- Generic stable insertion by a boolean `le`, used for the source's
`sort()` calls (Python's sort is stable; a new element goes after the
elements it compares equal to). -/
def insert_le {α : Type} (le : α → α → Bool) (x : α) : List α → List α
  | [] => [x]
  | y :: ys => if le y x then y :: insert_le le x ys else x :: y :: ys

/-- Stable sort by a boolean `le` (insertion sort, processing the list in
order so ties keep their original relative order). -/
def sort_le {α : Type} (le : α → α → Bool) (l : List α) : List α :=
  l.foldl (fun acc x => insert_le le x acc) []

/-- Modelled from the spec: `TradeList.date_sort` of the missing
`tradelist.py` — stable sort of the ledger by date, ascending. -/
def date_sort (l : List Trade) : List Trade :=
  sort_le (fun a b => Nat.ble a.Date b.Date) l

/-- `TaxCalcElement` (`taxcalcdict.py` lines 134–154): the per-code
matcher state — `matched` is the mapping from integer sequence number to
group (a Python dict in insertion order, here an association list), and
`unmatched` the ledger of not-yet-consumed trades. -/
structure TaxCalcElement where
  matched : List (Nat × TaxCalcTradeGroup)
  unmatched : List Trade
deriving DecidableEq, Repr

/-- `TaxCalcElement.__init__` (`taxcalcdict.py` lines 147–154): the
matcher starts with an empty `matched` and the full trade list as
`unmatched`; a trade list mixing instrument codes is rejected (the
`assert trade_list.check_same_code()` failure becomes `none`). -/
def TaxCalcElement.init (trade_list : List Trade) : Option TaxCalcElement :=
  if check_same_code trade_list then some ⟨[], trade_list⟩ else none

/-- Python dict assignment `m[k] = v`: replace the value when the key is
present, append the pair otherwise. -/
def dict_set (m : List (Nat × TaxCalcTradeGroup)) (k : Nat) (v : TaxCalcTradeGroup) :
    List (Nat × TaxCalcTradeGroup) :=
  if m.any (fun p => p.1 == k) then
    m.map (fun p => if p.1 == k then (k, v) else p)
  else m ++ [(k, v)]

/-- The main `while True` loop of `TaxCalcElement.allocate_trades`
(`taxcalcdict.py` lines 183–196), fuel-indexed: pop the earliest closing
trade, match a group for it, record it under `num_trades`, and repeat
until no closing trade remains.  Each pass removes the popped trade from
the ledger, so fuel `length + 1` (supplied by `allocate_trades`) never
runs out. -/
def allocate_main (CGTcalc : Bool) :
    Nat → List (Nat × TaxCalcTradeGroup) → Nat → List Trade →
    Except MatchErr (List (Nat × TaxCalcTradeGroup) × Nat × List Trade)
  | 0, m, num_trades, l => .ok (m, num_trades, l)
  | fuel + 1, m, num_trades, l =>
    match pop_earliest_closing_trade l with
    | none => .ok (m, num_trades, l)
    | some (earliest_closing_trade, l') =>
      match match_for_group l' earliest_closing_trade CGTcalc with
      | .error e => .error e
      | .ok (tax_calc_group, l'') =>
        allocate_main CGTcalc fuel (dict_set m num_trades tax_calc_group) (num_trades + 1) l''

/-- The leftover-resolution `while` loop of `TaxCalcElement.allocate_trades`
(`taxcalcdict.py` lines 206–218), fuel-indexed: while trades remain,
date-sort the ledger, pop the chronologically last trade, re-type it as
Close and match a group for it.  Each pass shortens the ledger, so fuel
`length + 1` (supplied by `allocate_trades`) never runs out. -/
def allocate_leftover (CGTcalc : Bool) :
    Nat → List (Nat × TaxCalcTradeGroup) → Nat → List Trade →
    Except MatchErr (List (Nat × TaxCalcTradeGroup) × Nat × List Trade)
  | 0, m, num_trades, l => .ok (m, num_trades, l)
  | fuel + 1, m, num_trades, l =>
    if 0 < l.length then
      match (date_sort l).getLast? with
      | none => .ok (m, num_trades, l)
      | some last =>
        let trade_to_match := { last with tradetype := TType.Close }
        match match_for_group (date_sort l).dropLast trade_to_match CGTcalc with
        | .error e => .error e
        | .ok (tax_calc_group, l') =>
          allocate_leftover CGTcalc fuel (dict_set m num_trades tax_calc_group)
            (num_trades + 1) l'
    else .ok (m, num_trades, l)

/-- `TaxCalcElement.allocate_trades` (`taxcalcdict.py` lines 171–226):
run the main loop over the closing trades; afterwards, if trades remain
and the final net position is exactly zero, resolve them with the
leftover loop; a non-zero final position is left unmatched without
error. -/
def allocate_trades (e : TaxCalcElement) (CGTcalc : Bool) : Except MatchErr TaxCalcElement :=
  match allocate_main CGTcalc (e.unmatched.length + 1) e.matched 1 e.unmatched with
  | .error err => .error err
  | .ok (m1, num_trades, l1) =>
    if 0 < l1.length then
      if final_position l1 = 0 then
        match allocate_leftover CGTcalc (l1.length + 1) m1 num_trades l1 with
        | .error err => .error err
        | .ok (m2, _, l2) => .ok ⟨m2, l2⟩
      else .ok ⟨m1, l1⟩
    else .ok ⟨m1, l1⟩

/-- `TaxCalcDict` (`taxcalcdict.py` lines 21–40): mapping from instrument
code to per-code matcher, in insertion order. -/
abbrev TaxCalcDict := List (String × TaxCalcElement)

/-- `TaxCalcDict.allocate_dict_trades` (`taxcalcdict.py` lines 42–45):
allocate every element's trades in order; the first failure aborts the
run (the Python exception propagates out of the list comprehension). -/
def allocate_dict_trades (d : TaxCalcDict) (CGTcalc : Bool) : Except MatchErr TaxCalcDict :=
  match d with
  | [] => .ok []
  | (code, e) :: rest =>
    match allocate_trades e CGTcalc with
    | .error err => .error err
    | .ok e' =>
      match allocate_dict_trades rest CGTcalc with
      | .error err => .error err
      | .ok rest' => .ok ((code, e') :: rest')

/-- Civil date (year, month, day) of a serial day number counted from
1970-01-01, proleptic Gregorian calendar. -/
def civil_from_days (d : Nat) : Nat × Nat × Nat :=
  let z := d + 719468
  let doe := z % 146097
  let era := z / 146097
  let yoe := (doe - doe / 1460 + doe / 36524 - doe / 146096) / 365
  let y := yoe + era * 400
  let doy := doe - (365 * yoe + yoe / 4 - yoe / 100)
  let mp := (5 * doy + 2) / 153
  let day := doy - (153 * mp + 2) / 5 + 1
  let m := if mp < 10 then mp + 3 else mp - 9
  (if m ≤ 2 then y + 1 else y, m, day)

/-- Modelled from the spec: `which_tax_year` of the missing `utils.py` —
a UK tax year runs 6 April to 5 April and is named after its ending
year: dates up to 5 April belong to the year ending that 5 April, later
dates to the year ending next 5 April. -/
def which_tax_year (d : Nat) : Nat :=
  match civil_from_days d with
  | (y, m, day) => if m < 4 ∨ (m = 4 ∧ day ≤ 5) then y else y + 1

/-- The 10-field financial tuple of `group_display_taxes`
(`taxcalcdict.py` lines 372–373 name its components when unpacking a
summary): disposal proceeds, allowable costs, year gains, year losses,
number of disposals, commissions, taxes, gross profit, absolute matched
quantity, net profit. -/
structure TaxTuple where
  disposal_proceeds : ℚ
  allowable_costs : ℚ
  year_gains : ℚ
  year_losses : ℚ
  number_disposals : ℚ
  commissions : ℚ
  taxes : ℚ
  gross_profit : ℚ
  abs_quantity : ℚ
  net_profit : ℚ
deriving DecidableEq, Repr

/-- Modelled from the spec: `zero_tax_tuple` of the missing
`taxcalctradegroup.py` — the defined all-zero tuple. -/
def zero_tax_tuple : TaxTuple := ⟨0, 0, 0, 0, 0, 0, 0, 0, 0, 0⟩

/-- Field-wise sum of two tuples (the source's `map(sum, zip(*taxdata))`). -/
def TaxTuple.add (a b : TaxTuple) : TaxTuple :=
  ⟨a.disposal_proceeds + b.disposal_proceeds, a.allowable_costs + b.allowable_costs,
   a.year_gains + b.year_gains, a.year_losses + b.year_losses,
   a.number_disposals + b.number_disposals, a.commissions + b.commissions,
   a.taxes + b.taxes, a.gross_profit + b.gross_profit,
   a.abs_quantity + b.abs_quantity, a.net_profit + b.net_profit⟩

/-- Field-wise sum of a list of tuples. -/
def sum_tax_tuples (l : List TaxTuple) : TaxTuple :=
  l.foldl TaxTuple.add zero_tax_tuple

/-- The matched pieces of a group, across all three tiers. -/
def all_matched_pieces (g : TaxCalcTradeGroup) : List Trade :=
  g.same_day ++ g.within_month ++ g.s104

/-- Modelled from the spec: `TaxCalcTradeGroup.group_display_taxes` of
the missing `taxcalctradegroup.py` — the group's financial tuple for a
requested tax year.  A group whose closing trade falls outside the
requested year contributes the all-zero tuple; otherwise: disposal
proceeds are closing quantity times price less closing commission,
allowable costs sum quantity times price plus apportioned commission
over the consumed pieces, the gain lands in the gains or losses bucket,
one disposal, total commissions, gross profit before costs, and net
profit equal to gross profit less commissions less taxes (the source's
reporting-level and output-stream arguments only affect printing and are
omitted; no per-trade tax amounts appear in the spec's data model, so
taxes are zero). -/
def group_display_taxes (taxyear : Nat) (g : TaxCalcTradeGroup) : TaxTuple :=
  if which_tax_year g.closing_trade.Date == taxyear then
    let c := g.closing_trade
    let pieces := all_matched_pieces g
    let disposal_proceeds := |c.quantity| * c.price - c.commission
    let allowable_costs := (pieces.map (fun t => |t.quantity| * t.price + t.commission)).sum
    let gain := disposal_proceeds - allowable_costs
    let commissions := c.commission + (pieces.map (fun t => t.commission)).sum
    let taxes : ℚ := 0
    let gross_profit := |c.quantity| * c.price - (pieces.map (fun t => |t.quantity| * t.price)).sum
    let net_profit := gross_profit - commissions - taxes
    ⟨disposal_proceeds, allowable_costs, if 0 ≤ gain then gain else 0,
     if 0 ≤ gain then 0 else gain, 1, commissions, taxes, gross_profit,
     |c.quantity|, net_profit⟩
  else zero_tax_tuple

/-- The sorted `groupidlist` walk shared by the reporting methods of
`TaxCalcElement`: group pairs in ascending key order. -/
def sorted_matched (e : TaxCalcElement) : List (Nat × TaxCalcTradeGroup) :=
  sort_le (fun a b => Nat.ble a.1 b.1) e.matched

/-- The `taxdata` list shared by the reporting methods of
`TaxCalcElement`: the groups' financial tuples in ascending key order. -/
def element_taxdata (e : TaxCalcElement) (taxyear : Nat) : List TaxTuple :=
  (sorted_matched e).map (fun p => group_display_taxes taxyear p.2)

/-- `TaxCalcElement.display_taxes_for_code` (`taxcalcdict.py` lines
303–320), printing omitted: tuples of the groups in ascending key order;
the empty case returns the all-zero tuple, otherwise the field-wise sum
is returned. -/
def display_taxes_for_code (e : TaxCalcElement) (taxyear : Nat) : TaxTuple :=
  if (element_taxdata e taxyear).length = 0 then zero_tax_tuple
  else sum_tax_tuples (element_taxdata e taxyear)

/-- `np.mean` and `np.nan` over rationals: the mean of an empty list is
the not-a-number no-data value. -/
inductive NFloat where
  | nan : NFloat
  | val : ℚ → NFloat
deriving DecidableEq, Repr

/-- `np.mean`: arithmetic mean, `nan` on an empty list. -/
def np_mean (l : List ℚ) : NFloat :=
  if l.length = 0 then .nan else .val (l.sum / (l.length : ℚ))

/-- The `total_comm` local of `average_commission` (`taxcalcdict.py`
lines 322–344): the groups' commissions, summed. -/
def average_commission_total_comm (e : TaxCalcElement) (taxyear : Nat) : ℚ :=
  ((element_taxdata e taxyear).map (fun x => x.commissions)).sum

/-- The `total_quant` local of `average_commission`: the groups' absolute
matched quantities, summed. -/
def average_commission_total_quant (e : TaxCalcElement) (taxyear : Nat) : ℚ :=
  ((element_taxdata e taxyear).map (fun x => x.abs_quantity)).sum

/-- `TaxCalcElement.average_commission` (`taxcalcdict.py` lines 322–344):
total commission over twice the total matched quantity for the tax year;
with zero total quantity, `nan` when the commission is also zero and
zero otherwise. -/
def average_commission (e : TaxCalcElement) (taxyear : Nat) : NFloat :=
  if average_commission_total_quant e taxyear = 0 then
    if average_commission_total_comm e taxyear = 0 then .nan else .val 0
  else .val (average_commission_total_comm e taxyear /
    (2 * average_commission_total_quant e taxyear))

/-- `TaxCalcElement.individual_profits` (`taxcalcdict.py` lines 346–358):
net profit of each group for the tax year, in ascending key order (the
source's `self.matched.keys()` followed by an in-place `sort()`). -/
def individual_profits_for_code (e : TaxCalcElement) (taxyear : Nat) : List ℚ :=
  (element_taxdata e taxyear).map (fun x => x.net_profit)

/-- The sorted code walk shared by the aggregation methods of
`TaxCalcDict` (`codes = list(self.keys()); codes.sort()`). -/
def sorted_codes (d : TaxCalcDict) : List String :=
  sort_le (fun a b => !decide (b < a)) (d.map (fun p => p.1))

/-- Python dict lookup `self[code]`. -/
def dict_find (d : TaxCalcDict) (code : String) : Option TaxCalcElement :=
  (d.find? (fun p => p.1 == code)).map (fun p => p.2)

/-- `TaxCalcDict.individual_profits` (`taxcalcdict.py` lines 60–66): the
per-code profit lists, concatenated in ascending code order. -/
def individual_profits (d : TaxCalcDict) (taxyear : Nat) : List ℚ :=
  ((sorted_codes d).map (fun code =>
    match dict_find d code with
    | some e => individual_profits_for_code e taxyear
    | none => [])).flatten

/-- `TaxCalcDict.win_loss_ratio_etc` (`taxcalcdict.py` lines 68–79):
partition the individual profits into strictly positive wins and
strictly negative losses, returning their means and counts. -/
def win_loss_ratio_etc (d : TaxCalcDict) (tax_year : Nat) :
    NFloat × NFloat × Nat × Nat :=
  let indi_profits := individual_profits d tax_year
  let wins := indi_profits.filter (fun x => decide (0 < x))
  let losses := indi_profits.filter (fun x => decide (x < 0))
  (np_mean wins, np_mean losses, wins.length, losses.length)

/-- Concrete trades, groups and collections used to exercise the
definitions on closed inputs. -/
def tBuy1 : Trade := ⟨"X", 1, 100, 10, 5, TType.Open⟩

/-- A closing sale nine days after `tBuy1`. -/
def tSell1 : Trade := ⟨"X", 10, -100, 12, 5, TType.Close⟩

/-- The group produced by matching `tSell1` against `tBuy1` (pooled). -/
def gW : TaxCalcTradeGroup := ⟨tSell1, [], [], [scaleTrade tBuy1 1]⟩

/-- An opening buy later closed only implicitly. -/
def oBuy : Trade := ⟨"X", 1, 100, 10, 0, TType.Open⟩

/-- An opening sale netting `oBuy` to zero. -/
def oSell : Trade := ⟨"X", 3, -100, 12, 0, TType.Open⟩

/-- The group produced by the leftover resolution of `oBuy`/`oSell`. -/
def gLeft : TaxCalcTradeGroup :=
  ⟨{ oSell with tradetype := TType.Close }, [], [], [scaleTrade oBuy 1]⟩

/-- A trade in code A. -/
def tCodeA : Trade := ⟨"A", 1, 1, 1, 0, TType.Open⟩

/-- A trade in code B. -/
def tCodeB : Trade := ⟨"B", 1, -1, 1, 0, TType.Open⟩

/-- The empty per-code matcher. -/
def e0 : TaxCalcElement := ⟨[], []⟩

/-- A closed disposal of one lot at the given price, dated on the epoch. -/
def gP (price : ℚ) : TaxCalcTradeGroup :=
  ⟨⟨"A", 0, -1, price, 0, TType.Close⟩, [], [], []⟩

/-- A one-code portfolio with per-group net profits 5, 0, -3. -/
def dW : TaxCalcDict := [("A", ⟨[(1, gP 5), (2, gP 0), (3, gP (-3))], []⟩)]

/-- `l'` shadows `l` when every trade of `l'` carries the date and type
of some trade of `l`; the matching operations only erase, split or scale
trades, so the ledgers they produce shadow their inputs. -/
def Shadows (l' l : List Trade) : Prop :=
  ∀ u ∈ l', ∃ v ∈ l, u.Date = v.Date ∧ u.tradetype = v.tradetype

theorem shadows_refl (l : List Trade) : Shadows l l :=
  fun u hu => ⟨u, hu, rfl, rfl⟩

theorem shadows_trans {l₁ l₂ l₃ : List Trade} (h₁ : Shadows l₁ l₂) (h₂ : Shadows l₂ l₃) :
    Shadows l₁ l₃ := by
  intro u hu
  obtain ⟨v, hv, hd, ht⟩ := h₁ u hu
  obtain ⟨w, hw, hd', ht'⟩ := h₂ v hv
  exact ⟨w, hw, hd.trans hd', ht.trans ht'⟩

theorem length_insert_le {α : Type} (le : α → α → Bool) (x : α) (l : List α) :
    (insert_le le x l).length = l.length + 1 := by
  induction l with
  | nil => rfl
  | cons y ys ih =>
    simp only [insert_le]
    split
    all_goals simp [ih]

theorem mem_insert_le {α : Type} (le : α → α → Bool) (x y : α) (l : List α) :
    y ∈ insert_le le x l ↔ y = x ∨ y ∈ l := by
  induction l with
  | nil => simp [insert_le]
  | cons z zs ih =>
    simp only [insert_le]
    split
    all_goals simp [ih]
    all_goals tauto

theorem length_foldl_insert_le {α : Type} (le : α → α → Bool) (l acc : List α) :
    (l.foldl (fun acc x => insert_le le x acc) acc).length = acc.length + l.length := by
  induction l generalizing acc with
  | nil => rfl
  | cons x xs ih => simp [List.foldl_cons, ih, length_insert_le]; omega

theorem mem_foldl_insert_le {α : Type} (le : α → α → Bool) (l acc : List α) (y : α) :
    y ∈ l.foldl (fun acc x => insert_le le x acc) acc ↔ y ∈ acc ∨ y ∈ l := by
  induction l generalizing acc with
  | nil => simp
  | cons x xs ih => simp [List.foldl_cons, ih, mem_insert_le]; tauto

theorem length_sort_le {α : Type} (le : α → α → Bool) (l : List α) :
    (sort_le le l).length = l.length := by
  simpa using length_foldl_insert_le le l []

theorem mem_sort_le {α : Type} (le : α → α → Bool) (l : List α) (y : α) :
    y ∈ sort_le le l ↔ y ∈ l := by
  simpa using mem_foldl_insert_le le l [] y

theorem length_date_sort (l : List Trade) : (date_sort l).length = l.length :=
  length_sort_le _ l

theorem shadows_date_sort (l : List Trade) : Shadows (date_sort l) l :=
  fun u hu => ⟨u, (mem_sort_le _ l u).mp hu, rfl, rfl⟩

theorem scaleTrade_Date (t : Trade) (f : ℚ) : (scaleTrade t f).Date = t.Date := rfl

theorem scaleTrade_tradetype (t : Trade) (f : ℚ) :
    (scaleTrade t f).tradetype = t.tradetype := rfl

theorem scaleTrade_quantity (t : Trade) (f : ℚ) :
    (scaleTrade t f).quantity = t.quantity * f := rfl

theorem partial_pop_idx_eq_some {l : List Trade} {idx : Nat} {maxQ : ℚ}
    {p : Trade} {l' : List Trade}
    (h : partial_pop_idx l idx maxQ = some (p, l')) :
    ∃ t, l.get? idx = some t ∧
      ((|t.quantity| ≤ maxQ ∧ p = t ∧ l' = l.eraseIdx idx) ∨
       (maxQ < |t.quantity| ∧ p = scaleTrade t (maxQ / |t.quantity|) ∧
         l' = l.set idx (scaleTrade t (1 - maxQ / |t.quantity|)))) := by
  unfold partial_pop_idx at h
  cases hget : l.get? idx with
  | none => rw [hget] at h; simp at h
  | some t =>
    rw [hget] at h
    refine ⟨t, rfl, ?_⟩
    dsimp only at h
    by_cases hle : |t.quantity| ≤ maxQ
    · rw [if_pos hle] at h
      simp only [Option.some.injEq, Prod.mk.injEq] at h
      exact Or.inl ⟨hle, h.1.symm, h.2.symm⟩
    · rw [if_neg hle] at h
      simp only [Option.some.injEq, Prod.mk.injEq] at h
      exact Or.inr ⟨not_le.mp hle, h.1.symm, h.2.symm⟩

theorem partial_pop_idx_length_le {l : List Trade} {idx : Nat} {maxQ : ℚ}
    {p : Trade} {l' : List Trade}
    (h : partial_pop_idx l idx maxQ = some (p, l')) : l'.length ≤ l.length := by
  obtain ⟨t, hget, hcase⟩ := partial_pop_idx_eq_some h
  rcases hcase with ⟨-, -, rfl⟩ | ⟨-, -, rfl⟩
  · exact (List.length_eraseIdx_le _ _)
  · simp

theorem partial_pop_idx_abs_le {l : List Trade} {idx : Nat} {maxQ : ℚ}
    {p : Trade} {l' : List Trade} (hq : 0 ≤ maxQ)
    (h : partial_pop_idx l idx maxQ = some (p, l')) : |p.quantity| ≤ maxQ := by
  obtain ⟨t, hget, hcase⟩ := partial_pop_idx_eq_some h
  rcases hcase with ⟨hle, rfl, -⟩ | ⟨hlt, rfl, -⟩
  · exact hle
  · have ht : (0 : ℚ) < |t.quantity| := lt_of_le_of_lt hq hlt
    rw [scaleTrade_quantity, abs_mul, abs_div, abs_abs, abs_of_nonneg hq]
    rw [mul_div_assoc']
    rw [mul_comm, mul_div_assoc, div_self (ne_of_gt ht), mul_one]

theorem partial_pop_idx_shadows {l : List Trade} {idx : Nat} {maxQ : ℚ}
    {p : Trade} {l' : List Trade}
    (h : partial_pop_idx l idx maxQ = some (p, l')) : Shadows l' l := by
  obtain ⟨t, hget, hcase⟩ := partial_pop_idx_eq_some h
  have htmem : t ∈ l := List.get?_mem hget
  rcases hcase with ⟨-, -, rfl⟩ | ⟨-, -, rfl⟩
  · exact fun u hu => ⟨u, (List.eraseIdx_sublist l idx).mem hu, rfl, rfl⟩
  · intro u hu
    rcases List.mem_or_eq_of_mem_set hu with hu' | rfl
    · exact ⟨u, hu', rfl, rfl⟩
    · exact ⟨t, htmem, rfl, rfl⟩

theorem abs_scaleTrade_sum (f : ℚ) (hf : 0 ≤ f) (l : List Trade) (idxs : List Nat) :
    ((idxs.filterMap (fun i => (l.get? i).map (fun t => scaleTrade t f))).map
        (fun t => |t.quantity|)).sum =
      f * (idxs.map (fun i =>
        match l.get? i with
        | some t => |t.quantity|
        | none => 0)).sum := by
  induction idxs with
  | nil => simp
  | cons i rest ih =>
    simp only [List.get?_eq_getElem?] at ih
    cases hget : l[i]? with
    | none => simp [List.get?_eq_getElem?, hget, ih]
    | some t =>
      simp [List.get?_eq_getElem?, hget, ih, scaleTrade_quantity, abs_mul, abs_of_nonneg hf]
      ring

theorem proportionate_pop_idx_ok_sum {l : List Trade} {idxs : List Nat} {target : ℚ}
    {popped l' : List Trade} (htarget : 0 < target)
    (h : proportionate_pop_idx l idxs target = .ok (popped, l')) :
    (popped.map (fun t => |t.quantity|)).sum = target := by
  unfold proportionate_pop_idx at h
  set total : ℚ := (idxs.map (fun i =>
    match l.get? i with
    | some t => |t.quantity|
    | none => 0)).sum with htotal
  by_cases hlt : total < target
  · rw [if_pos hlt] at h; simp at h
  · rw [if_neg hlt] at h
    simp only [Except.ok.injEq, Prod.mk.injEq] at h
    have htot : 0 < total := lt_of_lt_of_le htarget (not_lt.mp hlt)
    have hfrac : 0 ≤ target / total := le_of_lt (div_pos htarget htot)
    rw [← h.1, abs_scaleTrade_sum _ hfrac l idxs, ← htotal]
    field_simp

theorem proportionate_pop_idx_length_le {l : List Trade} {idxs : List Nat} {target : ℚ}
    {popped l' : List Trade}
    (h : proportionate_pop_idx l idxs target = .ok (popped, l')) :
    l'.length ≤ l.length := by
  unfold proportionate_pop_idx at h
  set total : ℚ := (idxs.map (fun i =>
    match l.get? i with
    | some t => |t.quantity|
    | none => 0)).sum with htotal
  by_cases hlt : total < target
  · rw [if_pos hlt] at h; simp at h
  · rw [if_neg hlt] at h
    simp only [Except.ok.injEq, Prod.mk.injEq] at h
    calc l'.length ≤ l.enum.length := h.2 ▸ List.length_filterMap_le _ _
    _ = l.length := List.enum_length

theorem proportionate_pop_idx_shadows {l : List Trade} {idxs : List Nat} {target : ℚ}
    {popped l' : List Trade}
    (h : proportionate_pop_idx l idxs target = .ok (popped, l')) :
    Shadows l' l := by
  unfold proportionate_pop_idx at h
  set total : ℚ := (idxs.map (fun i =>
    match l.get? i with
    | some t => |t.quantity|
    | none => 0)).sum with htotal
  by_cases hlt : total < target
  · rw [if_pos hlt] at h; simp at h
  · rw [if_neg hlt] at h
    simp only [Except.ok.injEq, Prod.mk.injEq] at h
    intro u hu
    rw [← h.2] at hu
    obtain ⟨⟨i, v⟩, hmem, hv⟩ := List.mem_filterMap.mp hu
    have hvl : v ∈ l := by
      have := List.mem_enum_iff_getElem?.mp hmem
      exact List.get?_mem (by simpa [List.get?_eq_getElem?] using this)
    by_cases hin : i ∈ idxs
    · rw [if_pos hin] at hv
      split at hv
      · simp at hv
      · simp only [Option.some.injEq] at hv
        exact ⟨v, hvl, by subst hv; rfl, by subst hv; rfl⟩
    · rw [if_neg hin] at hv
      simp only [Option.some.injEq] at hv
      exact ⟨v, hvl, by subst hv; rfl, by subst hv; rfl⟩

theorem minDateStep_ne_none (b0 : Option (Nat × Trade)) (x : Nat × Trade) :
    minDateStep b0 x ≠ none := by
  cases b0 with
  | none => simp [minDateStep]
  | some b =>
    simp only [minDateStep]
    split
    all_goals simp

theorem minDateStep_spec {b0 : Option (Nat × Trade)} {x c : Nat × Trade}
    (h : minDateStep b0 x = some c) :
    (c = x ∨ b0 = some c) ∧ c.2.Date ≤ x.2.Date ∧
      ∀ b, b0 = some b → c.2.Date ≤ b.2.Date := by
  cases b0 with
  | none =>
    simp only [minDateStep, Option.some.injEq] at h
    subst h
    exact ⟨Or.inl rfl, le_refl _, fun b hb => nomatch hb⟩
  | some b =>
    simp only [minDateStep] at h
    by_cases hlt : x.2.Date < b.2.Date
    · rw [if_pos hlt] at h
      injection h with h
      subst h
      exact ⟨Or.inl rfl, le_refl _,
        fun b' hb' => by injection hb' with hb'; subst hb'; exact le_of_lt hlt⟩
    · rw [if_neg hlt] at h
      injection h with h
      subst h
      exact ⟨Or.inr rfl, not_lt.mp hlt,
        fun b' hb' => by injection hb' with hb'; subst hb'; exact le_refl _⟩

theorem foldl_minDateStep_spec (xs : List (Nat × Trade)) :
    ∀ (b0 : Option (Nat × Trade)) (r : Nat × Trade), xs.foldl minDateStep b0 = some r →
      (b0 = some r ∨ r ∈ xs) ∧ (∀ y ∈ xs, r.2.Date ≤ y.2.Date) ∧
        ∀ b, b0 = some b → r.2.Date ≤ b.2.Date := by
  induction xs with
  | nil =>
    intro b0 r h
    simp only [List.foldl_nil] at h
    refine ⟨Or.inl h, by simp, fun b hb => ?_⟩
    rw [h] at hb
    injection hb with hb
    subst hb
    exact le_refl _
  | cons x xs ih =>
    intro b0 r h
    rw [List.foldl_cons] at h
    obtain ⟨hmem, hmin, hup⟩ := ih (minDateStep b0 x) r h
    refine ⟨?_, ?_, ?_⟩
    · rcases hmem with he | hmem
      · obtain ⟨hc, -, -⟩ := minDateStep_spec he
        rcases hc with rfl | hb0r
        · exact Or.inr (List.mem_cons_self _ _)
        · exact Or.inl hb0r
      · exact Or.inr (List.mem_cons_of_mem _ hmem)
    · intro y hy
      rcases List.mem_cons.mp hy with rfl | hy'
      · cases hstep : minDateStep b0 y with
        | none => exact absurd hstep (minDateStep_ne_none _ _)
        | some c =>
          obtain ⟨-, hcx, -⟩ := minDateStep_spec hstep
          exact le_trans (hup c hstep) hcx
      · exact hmin y hy'
    · intro b hb
      cases hstep : minDateStep b0 x with
      | none => exact absurd hstep (minDateStep_ne_none _ _)
      | some c =>
        obtain ⟨-, -, hcb⟩ := minDateStep_spec hstep
        exact le_trans (hup c hstep) (hcb b hb)

theorem bestByDate_spec {p : Trade → Bool} {l : List Trade} {i : Nat} {t : Trade}
    (h : bestByDate p l = some (i, t)) :
    l.get? i = some t ∧ p t = true ∧
      ∀ j u, l.get? j = some u → p u = true → t.Date ≤ u.Date := by
  unfold bestByDate at h
  obtain ⟨hmem, hmin, -⟩ := foldl_minDateStep_spec _ none _ h
  rcases hmem with he | hmem
  · cases he
  · have hmem' := List.mem_filter.mp hmem
    have hget := List.mem_enum_iff_getElem?.mp hmem'.1
    refine ⟨by simpa [List.get?_eq_getElem?] using hget, hmem'.2, ?_⟩
    intro j u hju hpu
    have hju' : (j, u) ∈ l.enum.filter (fun it => p it.2) :=
      List.mem_filter.mpr
        ⟨List.mem_enum_iff_getElem?.mpr (by simpa [List.get?_eq_getElem?] using hju), hpu⟩
    exact hmin _ hju'

theorem pop_earliest_spec {l : List Trade} {c : Trade} {l' : List Trade}
    (h : pop_earliest_closing_trade l = some (c, l')) :
    ∃ i, l.get? i = some c ∧ l' = l.eraseIdx i ∧ i < l.length ∧
      c.tradetype = TType.Close ∧
      ∀ u ∈ l, u.tradetype = TType.Close → c.Date ≤ u.Date := by
  unfold pop_earliest_closing_trade at h
  cases hb : bestByDate (fun t => t.tradetype == TType.Close) l with
  | none => rw [hb] at h; simp at h
  | some it =>
    obtain ⟨i, t⟩ := it
    rw [hb] at h
    simp only [Option.map_some', Option.some.injEq, Prod.mk.injEq] at h
    obtain ⟨hget, hp, hmin⟩ := bestByDate_spec hb
    obtain ⟨rfl, rfl⟩ := h.symm.imp Eq.symm Eq.symm
    refine ⟨i, hget, rfl, ?_, by simpa using hp, ?_⟩
    · exact (List.get?_eq_some.mp hget).1
    · intro u hu hclose
      obtain ⟨j, hj⟩ := List.mem_iff_get?.mp hu
      exact hmin j u hj (by simpa using hclose)

theorem pop_earliest_length {l : List Trade} {c : Trade} {l' : List Trade}
    (h : pop_earliest_closing_trade l = some (c, l')) :
    l'.length + 1 = l.length := by
  obtain ⟨i, hget, rfl, hi, -, -⟩ := pop_earliest_spec h
  rw [List.length_eraseIdx_of_lt hi]
  omega

theorem pop_earliest_mem {l : List Trade} {c : Trade} {l' : List Trade}
    (h : pop_earliest_closing_trade l = some (c, l')) : c ∈ l := by
  obtain ⟨i, hget, -, -, -, -⟩ := pop_earliest_spec h
  exact List.get?_mem hget

theorem pop_earliest_shadows {l : List Trade} {c : Trade} {l' : List Trade}
    (h : pop_earliest_closing_trade l = some (c, l')) : Shadows l' l := by
  obtain ⟨i, -, rfl, -, -, -⟩ := pop_earliest_spec h
  exact fun u hu => ⟨u, (List.eraseIdx_sublist l i).mem hu, rfl, rfl⟩

theorem is_unmatched_iff (g : TaxCalcTradeGroup) :
    g.is_unmatched = true ↔ 0 < g.count_unmatched := by
  simp [TaxCalcTradeGroup.is_unmatched]

theorem count_unmatched_append_same_day (g : TaxCalcTradeGroup) (p : Trade) :
    ({ g with same_day := g.same_day ++ [p] } : TaxCalcTradeGroup).count_unmatched =
      g.count_unmatched - |p.quantity| := by
  simp [TaxCalcTradeGroup.count_unmatched, TaxCalcTradeGroup.count_matched, sum_abs_qty]
  ring

theorem count_unmatched_append_within_month (g : TaxCalcTradeGroup) (p : Trade) :
    ({ g with within_month := g.within_month ++ [p] } : TaxCalcTradeGroup).count_unmatched =
      g.count_unmatched - |p.quantity| := by
  simp [TaxCalcTradeGroup.count_unmatched, TaxCalcTradeGroup.count_matched, sum_abs_qty]
  ring

theorem same_day_go_spec (ref : Trade) (fuel : Nat) :
    ∀ (g : TaxCalcTradeGroup) (l : List Trade),
      (same_day_go ref fuel g l).1.closing_trade = g.closing_trade ∧
      (same_day_go ref fuel g l).1.within_month = g.within_month ∧
      (same_day_go ref fuel g l).1.s104 = g.s104 ∧
      (same_day_go ref fuel g l).2.length ≤ l.length ∧
      Shadows (same_day_go ref fuel g l).2 l ∧
      (0 ≤ g.count_unmatched → 0 ≤ (same_day_go ref fuel g l).1.count_unmatched) := by
  induction fuel with
  | zero =>
    intro g l
    exact ⟨rfl, rfl, rfl, le_refl _, shadows_refl l, fun h => h⟩
  | succ fuel ih =>
    intro g l
    rw [same_day_go]
    by_cases hum : g.is_unmatched = true
    · rw [if_pos hum]
      cases hidx : idx_of_last_trade_same_day l ref with
      | none => exact ⟨rfl, rfl, rfl, le_refl _, shadows_refl l, fun h => h⟩
      | some tradeidx =>
        dsimp only
        cases hpop : partial_pop_idx l tradeidx g.count_unmatched with
        | none => exact ⟨rfl, rfl, rfl, le_refl _, shadows_refl l, fun h => h⟩
        | some pl =>
          obtain ⟨popped, l'⟩ := pl
          dsimp only
          have hq : 0 < g.count_unmatched := (is_unmatched_iff g).mp hum
          have habs : |popped.quantity| ≤ g.count_unmatched :=
            partial_pop_idx_abs_le (le_of_lt hq) hpop
          have ihs := ih { g with same_day := g.same_day ++ [popped] } l'
          refine ⟨ihs.1, ihs.2.1, ihs.2.2.1,
            le_trans ihs.2.2.2.1 (partial_pop_idx_length_le hpop),
            shadows_trans ihs.2.2.2.2.1 (partial_pop_idx_shadows hpop),
            fun _ => ?_⟩
          refine ihs.2.2.2.2.2 ?_
          rw [count_unmatched_append_same_day]
          linarith
    · rw [if_neg hum]
      exact ⟨rfl, rfl, rfl, le_refl _, shadows_refl l, fun h => h⟩

theorem within_month_go_spec (ref : Trade) (fuel : Nat) :
    ∀ (g : TaxCalcTradeGroup) (l : List Trade),
      (within_month_go ref fuel g l).1.closing_trade = g.closing_trade ∧
      (within_month_go ref fuel g l).1.same_day = g.same_day ∧
      (within_month_go ref fuel g l).1.s104 = g.s104 ∧
      (within_month_go ref fuel g l).2.length ≤ l.length ∧
      Shadows (within_month_go ref fuel g l).2 l ∧
      (0 ≤ g.count_unmatched → 0 ≤ (within_month_go ref fuel g l).1.count_unmatched) := by
  induction fuel with
  | zero =>
    intro g l
    exact ⟨rfl, rfl, rfl, le_refl _, shadows_refl l, fun h => h⟩
  | succ fuel ih =>
    intro g l
    rw [within_month_go]
    by_cases hum : g.is_unmatched = true
    · rw [if_pos hum]
      cases hidx : idx_of_first_trade_next_30days l ref with
      | none => exact ⟨rfl, rfl, rfl, le_refl _, shadows_refl l, fun h => h⟩
      | some tradeidx =>
        dsimp only
        cases hpop : partial_pop_idx l tradeidx g.count_unmatched with
        | none => exact ⟨rfl, rfl, rfl, le_refl _, shadows_refl l, fun h => h⟩
        | some pl =>
          obtain ⟨popped, l'⟩ := pl
          dsimp only
          have hq : 0 < g.count_unmatched := (is_unmatched_iff g).mp hum
          have habs : |popped.quantity| ≤ g.count_unmatched :=
            partial_pop_idx_abs_le (le_of_lt hq) hpop
          have ihs := ih { g with within_month := g.within_month ++ [popped] } l'
          refine ⟨ihs.1, ihs.2.1, ihs.2.2.1,
            le_trans ihs.2.2.2.1 (partial_pop_idx_length_le hpop),
            shadows_trans ihs.2.2.2.2.1 (partial_pop_idx_shadows hpop),
            fun _ => ?_⟩
          refine ihs.2.2.2.2.2 ?_
          rw [count_unmatched_append_within_month]
          linarith
    · rw [if_neg hum]
      exact ⟨rfl, rfl, rfl, le_refl _, shadows_refl l, fun h => h⟩

theorem count_unmatched_set_s104 (g : TaxCalcTradeGroup) (popped : List Trade) :
    ({ g with s104 := popped } : TaxCalcTradeGroup).count_unmatched =
      g.count_unmatched + sum_abs_qty g.s104 - sum_abs_qty popped := by
  simp [TaxCalcTradeGroup.count_unmatched, TaxCalcTradeGroup.count_matched]
  ring

theorem proportionate_pop_idx_error {l : List Trade} {idxs : List Nat} {target : ℚ}
    {e : MatchErr} (h : proportionate_pop_idx l idxs target = .error e) :
    e = .insufficientLiquidity := by
  unfold proportionate_pop_idx at h
  set total : ℚ := (idxs.map (fun i =>
    match l.get? i with
    | some t => |t.quantity|
    | none => 0)).sum with htotal
  by_cases hlt : total < target
  · rw [if_pos hlt] at h
    simp only [Except.error.injEq] at h
    exact h.symm
  · rw [if_neg hlt] at h
    simp at h

theorem s104_step_ok_spec {ref : Trade} {g : TaxCalcTradeGroup} {l : List Trade}
    {g' : TaxCalcTradeGroup} {l' : List Trade}
    (h : s104_step ref g l = .ok (g', l')) :
    g'.closing_trade = g.closing_trade ∧ g'.same_day = g.same_day ∧
      g'.within_month = g.within_month ∧ l'.length ≤ l.length ∧ Shadows l' l ∧
      (g.s104 = [] → 0 ≤ g.count_unmatched → 0 ≤ g'.count_unmatched) := by
  unfold s104_step at h
  by_cases hum : g.is_unmatched = true
  · rw [if_pos hum] at h
    by_cases hlen : 0 < (idx_of_trades_before_datetime l ref).length
    · rw [if_pos hlen] at h
      cases hp : proportionate_pop_idx l (idx_of_trades_before_datetime l ref)
          g.count_unmatched with
      | error e => rw [hp] at h; simp at h
      | ok pr =>
        obtain ⟨popped, l2⟩ := pr
        rw [hp] at h
        simp only [Except.ok.injEq, Prod.mk.injEq] at h
        obtain ⟨hg', hl'⟩ := h
        subst hg'
        subst hl'
        have hq : 0 < g.count_unmatched := (is_unmatched_iff g).mp hum
        refine ⟨rfl, rfl, rfl, proportionate_pop_idx_length_le hp,
          proportionate_pop_idx_shadows hp, ?_⟩
        intro hs104 _
        have hsum := proportionate_pop_idx_ok_sum hq hp
        rw [count_unmatched_set_s104, hs104]
        simp only [sum_abs_qty, hsum, List.map_nil, List.sum_nil]
        linarith
    · rw [if_neg hlen] at h
      simp only [Except.ok.injEq, Prod.mk.injEq] at h
      obtain ⟨hg', hl'⟩ := h
      subst hg'
      subst hl'
      exact ⟨rfl, rfl, rfl, le_refl _, shadows_refl l, fun _ h0 => h0⟩
  · rw [if_neg hum] at h
    simp only [Except.ok.injEq, Prod.mk.injEq] at h
    obtain ⟨hg', hl'⟩ := h
    subst hg'
    subst hl'
    exact ⟨rfl, rfl, rfl, le_refl _, shadows_refl l, fun _ h0 => h0⟩

theorem s104_step_error {ref : Trade} {g : TaxCalcTradeGroup} {l : List Trade}
    {e : MatchErr} (h : s104_step ref g l = .error e) :
    e = .insufficientLiquidity := by
  unfold s104_step at h
  by_cases hum : g.is_unmatched = true
  · rw [if_pos hum] at h
    by_cases hlen : 0 < (idx_of_trades_before_datetime l ref).length
    · rw [if_pos hlen] at h
      cases hp : proportionate_pop_idx l (idx_of_trades_before_datetime l ref)
          g.count_unmatched with
      | error e2 =>
        rw [hp] at h
        simp only [Except.error.injEq] at h
        rw [← h]
        exact proportionate_pop_idx_error hp
      | ok pr =>
        obtain ⟨popped, l2⟩ := pr
        rw [hp] at h
        simp at h
    · rw [if_neg hlen] at h
      simp at h
  · rw [if_neg hum] at h
    simp at h

theorem finalize_group_ok {ref : Trade} {g : TaxCalcTradeGroup} {l : List Trade}
    {g' : TaxCalcTradeGroup} {l' : List Trade}
    (h : finalize_group ref g l = .ok (g', l')) :
    s104_step ref g l = .ok (g', l') ∧ g'.is_unmatched = false := by
  unfold finalize_group at h
  cases hs : s104_step ref g l with
  | error e => rw [hs] at h; simp at h
  | ok pr =>
    obtain ⟨g3, l3⟩ := pr
    rw [hs] at h
    dsimp only at h
    by_cases hum : g3.is_unmatched = true
    · rw [if_pos hum] at h; simp at h
    · rw [if_neg hum] at h
      simp only [Except.ok.injEq, Prod.mk.injEq] at h
      obtain ⟨h1, h2⟩ := h
      subst h1
      subst h2
      exact ⟨rfl, Bool.of_not_eq_true hum⟩

theorem finalize_group_error_unmatchable {ref : Trade} {g : TaxCalcTradeGroup}
    {l : List Trade} {q : ℚ} {c : Trade}
    (h : finalize_group ref g l = .error (.unmatchable q c)) :
    ∃ g3 l3, s104_step ref g l = .ok (g3, l3) ∧ q = g3.count_unmatched ∧
      c = g3.closing_trade ∧ g3.is_unmatched = true := by
  unfold finalize_group at h
  cases hs : s104_step ref g l with
  | error e =>
    rw [hs] at h
    simp only [Except.error.injEq] at h
    have := s104_step_error hs
    rw [h] at this
    cases this
  | ok pr =>
    obtain ⟨g3, l3⟩ := pr
    rw [hs] at h
    dsimp only at h
    by_cases hum : g3.is_unmatched = true
    · rw [if_pos hum] at h
      simp only [Except.error.injEq, MatchErr.unmatchable.injEq] at h
      exact ⟨g3, l3, rfl, h.1.symm, h.2.symm, hum⟩
    · rw [if_neg hum] at h
      simp at h

theorem count_unmatched_init (t : Trade) :
    (TaxCalcTradeGroup.init t).count_unmatched = |t.quantity| := by
  simp [TaxCalcTradeGroup.init, TaxCalcTradeGroup.count_unmatched,
    TaxCalcTradeGroup.count_matched, sum_abs_qty]

theorem match_for_group_true_eq (l : List Trade) (t : Trade) :
    match_for_group l t true =
      finalize_group t
        (within_month_loop t (same_day_loop t (TaxCalcTradeGroup.init t) l).1
          (same_day_loop t (TaxCalcTradeGroup.init t) l).2).1
        (within_month_loop t (same_day_loop t (TaxCalcTradeGroup.init t) l).1
          (same_day_loop t (TaxCalcTradeGroup.init t) l).2).2 := rfl

theorem match_for_group_false_eq (l : List Trade) (t : Trade) :
    match_for_group l t false = finalize_group t (TaxCalcTradeGroup.init t) l := rfl

theorem not_unmatched_count_le {g : TaxCalcTradeGroup} (h : g.is_unmatched = false) :
    g.count_unmatched ≤ 0 := by
  by_contra hpos
  have := (is_unmatched_iff g).mpr (not_le.mp hpos)
  rw [h] at this
  cases this

theorem match_for_group_ok_spec {l : List Trade} {t : Trade} {cgt : Bool}
    {g : TaxCalcTradeGroup} {l' : List Trade}
    (h : match_for_group l t cgt = .ok (g, l')) :
    g.closing_trade = t ∧ g.count_unmatched = 0 ∧ g.is_unmatched = false ∧
      l'.length ≤ l.length ∧ Shadows l' l := by
  cases cgt with
  | false =>
    rw [match_for_group_false_eq] at h
    obtain ⟨hstep, hfin⟩ := finalize_group_ok h
    obtain ⟨hclos, -, -, hlen, hshad, hnn⟩ := s104_step_ok_spec hstep
    have hnn' : 0 ≤ g.count_unmatched := by
      refine hnn rfl ?_
      rw [count_unmatched_init]
      exact abs_nonneg _
    exact ⟨hclos, le_antisymm (not_unmatched_count_le hfin) hnn', hfin, hlen, hshad⟩
  | true =>
    rw [match_for_group_true_eq] at h
    obtain ⟨hstep, hfin⟩ := finalize_group_ok h
    obtain ⟨hclos, -, -, hlen3, hshad3, hnn⟩ := s104_step_ok_spec hstep
    have s1 := same_day_go_spec t (l.length + 1) (TaxCalcTradeGroup.init t) l
    have s2 := within_month_go_spec t
      ((same_day_go t (l.length + 1) (TaxCalcTradeGroup.init t) l).2.length + 1)
      (same_day_go t (l.length + 1) (TaxCalcTradeGroup.init t) l).1
      (same_day_go t (l.length + 1) (TaxCalcTradeGroup.init t) l).2
    have hclos' : g.closing_trade = t := hclos.trans (s2.1.trans s1.1)
    have hs104 : (within_month_loop t (same_day_loop t (TaxCalcTradeGroup.init t) l).1
        (same_day_loop t (TaxCalcTradeGroup.init t) l).2).1.s104 = [] :=
      s2.2.2.1.trans s1.2.2.1
    have hcnt : 0 ≤ (within_month_loop t (same_day_loop t (TaxCalcTradeGroup.init t) l).1
        (same_day_loop t (TaxCalcTradeGroup.init t) l).2).1.count_unmatched := by
      refine s2.2.2.2.2.2 (s1.2.2.2.2.2 ?_)
      rw [count_unmatched_init]
      exact abs_nonneg _
    have hnn' : 0 ≤ g.count_unmatched := hnn hs104 hcnt
    refine ⟨hclos', le_antisymm (not_unmatched_count_le hfin) hnn', hfin, ?_, ?_⟩
    · exact le_trans hlen3 (le_trans s2.2.2.2.1 s1.2.2.2.1)
    · exact shadows_trans hshad3 (shadows_trans s2.2.2.2.2.1 s1.2.2.2.2.1)

theorem match_for_group_shadows {l : List Trade} {t : Trade} {cgt : Bool}
    {g : TaxCalcTradeGroup} {l' : List Trade}
    (h : match_for_group l t cgt = .ok (g, l')) : Shadows l' l :=
  (match_for_group_ok_spec h).2.2.2.2

theorem match_for_group_length_le {l : List Trade} {t : Trade} {cgt : Bool}
    {g : TaxCalcTradeGroup} {l' : List Trade}
    (h : match_for_group l t cgt = .ok (g, l')) : l'.length ≤ l.length :=
  (match_for_group_ok_spec h).2.2.2.1

theorem match_for_group_error_unmatchable {l : List Trade} {t : Trade} {cgt : Bool}
    {q : ℚ} {c : Trade}
    (h : match_for_group l t cgt = .error (.unmatchable q c)) :
    c = t ∧ 0 < q := by
  cases cgt with
  | false =>
    rw [match_for_group_false_eq] at h
    obtain ⟨g3, l3, hstep, hq, hc, hum⟩ := finalize_group_error_unmatchable h
    obtain ⟨hclos, -, -, -, -, -⟩ := s104_step_ok_spec hstep
    exact ⟨hc.trans hclos, hq ▸ (is_unmatched_iff g3).mp hum⟩
  | true =>
    rw [match_for_group_true_eq] at h
    obtain ⟨g3, l3, hstep, hq, hc, hum⟩ := finalize_group_error_unmatchable h
    obtain ⟨hclos, -, -, -, -, -⟩ := s104_step_ok_spec hstep
    have s1 := same_day_go_spec t (l.length + 1) (TaxCalcTradeGroup.init t) l
    have s2 := within_month_go_spec t
      ((same_day_go t (l.length + 1) (TaxCalcTradeGroup.init t) l).2.length + 1)
      (same_day_go t (l.length + 1) (TaxCalcTradeGroup.init t) l).1
      (same_day_go t (l.length + 1) (TaxCalcTradeGroup.init t) l).2
    exact ⟨hc.trans (hclos.trans (s2.1.trans s1.1)), hq ▸ (is_unmatched_iff g3).mp hum⟩

theorem dict_set_mem {m : List (Nat × TaxCalcTradeGroup)} {k : Nat} {v : TaxCalcTradeGroup}
    {p : Nat × TaxCalcTradeGroup} (h : p ∈ dict_set m k v) : p ∈ m ∨ p = (k, v) := by
  unfold dict_set at h
  split at h
  · obtain ⟨q, hq, hqp⟩ := List.mem_map.mp h
    by_cases hk : (q.1 == k) = true
    · rw [if_pos hk] at hqp
      exact Or.inr hqp.symm
    · rw [if_neg hk] at hqp
      exact Or.inl (hqp ▸ hq)
  · rcases List.mem_append.mp h with hm | hv
    · exact Or.inl hm
    · exact Or.inr (List.mem_singleton.mp hv)

theorem dict_set_forall {m : List (Nat × TaxCalcTradeGroup)} {k : Nat}
    {v : TaxCalcTradeGroup} {P : TaxCalcTradeGroup → Prop}
    (hm : ∀ p ∈ m, P p.2) (hv : P v) : ∀ p ∈ dict_set m k v, P p.2 := by
  intro p hp
  rcases dict_set_mem hp with h | rfl
  · exact hm p h
  · exact hv

theorem dict_set_fresh {m : List (Nat × TaxCalcTradeGroup)} {k : Nat}
    {v : TaxCalcTradeGroup} (h : ∀ p ∈ m, p.1 < k) :
    dict_set m k v = m ++ [(k, v)] := by
  unfold dict_set
  rw [if_neg]
  simp only [List.any_eq_true, beq_iff_eq, not_exists]
  intro p
  intro hc
  exact absurd hc.2 (Nat.ne_of_lt (h p hc.1))

theorem allocate_main_forall (cgt : Bool) (P : TaxCalcTradeGroup → Prop)
    (hP : ∀ lc c g l2, match_for_group lc c cgt = .ok (g, l2) → P g) (fuel : Nat) :
    ∀ m n l m' n' l', (∀ p ∈ m, P p.2) →
      allocate_main cgt fuel m n l = .ok (m', n', l') → ∀ p ∈ m', P p.2 := by
  induction fuel with
  | zero =>
    intro m n l m' n' l' hm h
    simp only [allocate_main, Except.ok.injEq, Prod.mk.injEq] at h
    obtain ⟨rfl, -, -⟩ := h
    exact hm
  | succ fuel ih =>
    intro m n l m' n' l' hm h
    rw [allocate_main] at h
    cases hpop : pop_earliest_closing_trade l with
    | none =>
      rw [hpop] at h
      simp only [Except.ok.injEq, Prod.mk.injEq] at h
      obtain ⟨rfl, -, -⟩ := h
      exact hm
    | some cl =>
      obtain ⟨c, l2⟩ := cl
      rw [hpop] at h
      dsimp only at h
      cases hmatch : match_for_group l2 c cgt with
      | error e => rw [hmatch] at h; simp at h
      | ok gl =>
        obtain ⟨g, l3⟩ := gl
        rw [hmatch] at h
        dsimp only at h
        exact ih _ _ _ _ _ _ (dict_set_forall hm (hP _ _ _ _ hmatch)) h

theorem allocate_leftover_forall (cgt : Bool) (P : TaxCalcTradeGroup → Prop)
    (hP : ∀ lc c g l2, match_for_group lc c cgt = .ok (g, l2) → P g) (fuel : Nat) :
    ∀ m n l m' n' l', (∀ p ∈ m, P p.2) →
      allocate_leftover cgt fuel m n l = .ok (m', n', l') → ∀ p ∈ m', P p.2 := by
  induction fuel with
  | zero =>
    intro m n l m' n' l' hm h
    simp only [allocate_leftover, Except.ok.injEq, Prod.mk.injEq] at h
    obtain ⟨rfl, -, -⟩ := h
    exact hm
  | succ fuel ih =>
    intro m n l m' n' l' hm h
    rw [allocate_leftover] at h
    by_cases hlen : 0 < l.length
    · rw [if_pos hlen] at h
      cases hlast : (date_sort l).getLast? with
      | none =>
        rw [hlast] at h
        simp only [Except.ok.injEq, Prod.mk.injEq] at h
        obtain ⟨rfl, -, -⟩ := h
        exact hm
      | some last =>
        rw [hlast] at h
        dsimp only at h
        cases hmatch : match_for_group (date_sort l).dropLast
            { last with tradetype := TType.Close } cgt with
        | error e => rw [hmatch] at h; simp at h
        | ok gl =>
          obtain ⟨g, l3⟩ := gl
          rw [hmatch] at h
          dsimp only at h
          exact ih _ _ _ _ _ _ (dict_set_forall hm (hP _ _ _ _ hmatch)) h
    · rw [if_neg hlen] at h
      simp only [Except.ok.injEq, Prod.mk.injEq] at h
      obtain ⟨rfl, -, -⟩ := h
      exact hm

theorem allocate_main_keys (cgt : Bool) (fuel : Nat) :
    ∀ m n l m' n' l', 1 ≤ n → m.map (fun p => p.1) = List.range' 1 (n - 1) →
      allocate_main cgt fuel m n l = .ok (m', n', l') →
      m'.map (fun p => p.1) = List.range' 1 (n' - 1) ∧ 1 ≤ n' ∧ ∃ tail, m' = m ++ tail := by
  induction fuel with
  | zero =>
    intro m n l m' n' l' hn hkeys h
    simp only [allocate_main, Except.ok.injEq, Prod.mk.injEq] at h
    obtain ⟨rfl, rfl, -⟩ := h
    exact ⟨hkeys, hn, [], by simp⟩
  | succ fuel ih =>
    intro m n l m' n' l' hn hkeys h
    rw [allocate_main] at h
    cases hpop : pop_earliest_closing_trade l with
    | none =>
      rw [hpop] at h
      simp only [Except.ok.injEq, Prod.mk.injEq] at h
      obtain ⟨rfl, rfl, -⟩ := h
      exact ⟨hkeys, hn, [], by simp⟩
    | some cl =>
      obtain ⟨c, l2⟩ := cl
      rw [hpop] at h
      dsimp only at h
      cases hmatch : match_for_group l2 c cgt with
      | error e => rw [hmatch] at h; simp at h
      | ok gl =>
        obtain ⟨g, l3⟩ := gl
        rw [hmatch] at h
        dsimp only at h
        have hfresh : ∀ p ∈ m, p.1 < n := by
          intro p hp
          have : p.1 ∈ List.range' 1 (n - 1) := hkeys ▸ List.mem_map_of_mem _ hp
          have := List.mem_range'_1.mp this
          omega
        rw [dict_set_fresh hfresh] at h
        have hkeys2 : (m ++ [(n, g)]).map (fun p => p.1) = List.range' 1 ((n + 1) - 1) := by
          have hr := @List.range'_concat 1 1 (n - 1)
          simp only [List.map_append, hkeys, List.map_cons, List.map_nil]
          have h1 : (n + 1) - 1 = (n - 1) + 1 := by omega
          have h2 : 1 + 1 * (n - 1) = n := by omega
          rw [h1, hr, h2]
        obtain ⟨hk', hn', tail, htail⟩ := ih _ _ _ _ _ _ (by omega) hkeys2 h
        exact ⟨hk', hn', [(n, g)] ++ tail, by simp [htail]⟩

theorem allocate_main_chain (cgt : Bool) (fuel : Nat) :
    ∀ m n l m' n' l',
      List.Chain' (· ≤ ·) (m.map (fun p => p.2.closing_trade.Date)) →
      (∀ d ∈ (m.map (fun p => p.2.closing_trade.Date)).getLast?,
        ∀ u ∈ l, u.tradetype = TType.Close → d ≤ u.Date) →
      (∀ p ∈ m, p.1 < n) →
      allocate_main cgt fuel m n l = .ok (m', n', l') →
      List.Chain' (· ≤ ·) (m'.map (fun p => p.2.closing_trade.Date)) := by
  induction fuel with
  | zero =>
    intro m n l m' n' l' hchain hlast hfresh h
    simp only [allocate_main, Except.ok.injEq, Prod.mk.injEq] at h
    obtain ⟨rfl, -, -⟩ := h
    exact hchain
  | succ fuel ih =>
    intro m n l m' n' l' hchain hlast hfresh h
    rw [allocate_main] at h
    cases hpop : pop_earliest_closing_trade l with
    | none =>
      rw [hpop] at h
      simp only [Except.ok.injEq, Prod.mk.injEq] at h
      obtain ⟨rfl, -, -⟩ := h
      exact hchain
    | some cl =>
      obtain ⟨c, l2⟩ := cl
      rw [hpop] at h
      dsimp only at h
      cases hmatch : match_for_group l2 c cgt with
      | error e => rw [hmatch] at h; simp at h
      | ok gl =>
        obtain ⟨g, l3⟩ := gl
        rw [hmatch] at h
        dsimp only at h
        rw [dict_set_fresh hfresh] at h
        obtain ⟨i, hget, hl2, hi, hctype, hcmin⟩ := pop_earliest_spec hpop
        have hgclos : g.closing_trade = c := (match_for_group_ok_spec hmatch).1
        have hshad : Shadows l3 l2 := match_for_group_shadows hmatch
        have hmap : (m ++ [(n, g)]).map (fun p => p.2.closing_trade.Date) =
            m.map (fun p => p.2.closing_trade.Date) ++ [c.Date] := by
          simp [hgclos]
        have hchain2 : List.Chain' (· ≤ ·)
            ((m ++ [(n, g)]).map (fun p => p.2.closing_trade.Date)) := by
          rw [hmap]
          rw [List.chain'_append]
          refine ⟨hchain, List.chain'_singleton _, ?_⟩
          intro x hx y hy
          simp only [List.head?_cons, Option.mem_def, Option.some.injEq] at hy
          subst hy
          exact hlast x hx c (pop_earliest_mem hpop) hctype
        have hlast2 : ∀ d ∈ ((m ++ [(n, g)]).map
              (fun p => p.2.closing_trade.Date)).getLast?,
            ∀ u ∈ l3, u.tradetype = TType.Close → d ≤ u.Date := by
          rw [hmap]
          intro d hd u hu hutype
          rw [List.getLast?_concat] at hd
          simp only [Option.mem_def, Option.some.injEq] at hd
          subst hd
          obtain ⟨v, hv, hdate, htype⟩ := hshad u hu
          have hvl : v ∈ l := (hl2 ▸ List.eraseIdx_sublist l i).mem hv
          have := hcmin v hvl (htype ▸ hutype)
          omega
        have hfresh2 : ∀ p ∈ m ++ [(n, g)], p.1 < n + 1 := by
          intro p hp
          rcases List.mem_append.mp hp with hpm | hpn
          · exact Nat.lt_succ_of_lt (hfresh p hpm)
          · rw [List.mem_singleton.mp hpn]
            exact Nat.lt_succ_self n
        exact ih _ _ _ _ _ _ hchain2 hlast2 hfresh2 h

theorem allocate_main_noclose (cgt : Bool) (fuel : Nat) :
    ∀ m n l m' n' l', l.length < fuel →
      allocate_main cgt fuel m n l = .ok (m', n', l') →
      pop_earliest_closing_trade l' = none := by
  induction fuel with
  | zero => intro m n l m' n' l' hf h; omega
  | succ fuel ih =>
    intro m n l m' n' l' hf h
    rw [allocate_main] at h
    cases hpop : pop_earliest_closing_trade l with
    | none =>
      rw [hpop] at h
      simp only [Except.ok.injEq, Prod.mk.injEq] at h
      obtain ⟨-, -, rfl⟩ := h
      exact hpop
    | some cl =>
      obtain ⟨c, l2⟩ := cl
      rw [hpop] at h
      dsimp only at h
      cases hmatch : match_for_group l2 c cgt with
      | error e => rw [hmatch] at h; simp at h
      | ok gl =>
        obtain ⟨g, l3⟩ := gl
        rw [hmatch] at h
        dsimp only at h
        have h2 := pop_earliest_length hpop
        have h3 := match_for_group_length_le hmatch
        exact ih _ _ _ _ _ _ (by omega) h

theorem allocate_leftover_empty (cgt : Bool) (fuel : Nat) :
    ∀ m n l m' n' l', l.length < fuel →
      allocate_leftover cgt fuel m n l = .ok (m', n', l') → l' = [] := by
  induction fuel with
  | zero => intro m n l m' n' l' hf h; omega
  | succ fuel ih =>
    intro m n l m' n' l' hf h
    rw [allocate_leftover] at h
    by_cases hlen : 0 < l.length
    · rw [if_pos hlen] at h
      cases hlast : (date_sort l).getLast? with
      | none =>
        have : (date_sort l).length = 0 := by
          cases hds : date_sort l with
          | nil => simp
          | cons a as => rw [hds] at hlast; simp at hlast
        rw [length_date_sort] at this
        omega
      | some last =>
        rw [hlast] at h
        dsimp only at h
        cases hmatch : match_for_group (date_sort l).dropLast
            { last with tradetype := TType.Close } cgt with
        | error e => rw [hmatch] at h; simp at h
        | ok gl =>
          obtain ⟨g, l3⟩ := gl
          rw [hmatch] at h
          dsimp only at h
          have h3 := match_for_group_length_le hmatch
          have h4 : (date_sort l).dropLast.length = l.length - 1 := by
            rw [List.length_dropLast, length_date_sort]
          exact ih _ _ _ _ _ _ (by omega) h
    · rw [if_neg hlen] at h
      simp only [Except.ok.injEq, Prod.mk.injEq] at h
      obtain ⟨-, -, rfl⟩ := h
      cases l with
      | nil => rfl
      | cons a as => simp at hlen

theorem allocate_leftover_new (cgt : Bool) (fuel : Nat) :
    ∀ m n l m' n' l', allocate_leftover cgt fuel m n l = .ok (m', n', l') →
      ∀ p ∈ m', p ∈ m ∨ p.2.closing_trade.tradetype = TType.Close := by
  induction fuel with
  | zero =>
    intro m n l m' n' l' h
    simp only [allocate_leftover, Except.ok.injEq, Prod.mk.injEq] at h
    obtain ⟨rfl, -, -⟩ := h
    exact fun p hp => Or.inl hp
  | succ fuel ih =>
    intro m n l m' n' l' h
    rw [allocate_leftover] at h
    by_cases hlen : 0 < l.length
    · rw [if_pos hlen] at h
      cases hlast : (date_sort l).getLast? with
      | none =>
        rw [hlast] at h
        simp only [Except.ok.injEq, Prod.mk.injEq] at h
        obtain ⟨rfl, -, -⟩ := h
        exact fun p hp => Or.inl hp
      | some last =>
        rw [hlast] at h
        dsimp only at h
        cases hmatch : match_for_group (date_sort l).dropLast
            { last with tradetype := TType.Close } cgt with
        | error e => rw [hmatch] at h; simp at h
        | ok gl =>
          obtain ⟨g, l3⟩ := gl
          rw [hmatch] at h
          dsimp only at h
          intro p hp
          rcases ih _ _ _ _ _ _ h p hp with hmem | hclose
          · rcases dict_set_mem hmem with hmem' | rfl
            · exact Or.inl hmem'
            · refine Or.inr ?_
              have := (match_for_group_ok_spec hmatch).1
              rw [this]
          · exact Or.inr hclose
    · rw [if_neg hlen] at h
      simp only [Except.ok.injEq, Prod.mk.injEq] at h
      obtain ⟨rfl, -, -⟩ := h
      exact fun p hp => Or.inl hp

theorem allocate_main_grow (cgt : Bool) (fuel : Nat) :
    ∀ m n l m' n' l', (∀ p ∈ m, p.1 < n) →
      allocate_main cgt fuel m n l = .ok (m', n', l') → ∃ tail, m' = m ++ tail := by
  induction fuel with
  | zero =>
    intro m n l m' n' l' hfresh h
    simp only [allocate_main, Except.ok.injEq, Prod.mk.injEq] at h
    obtain ⟨rfl, -, -⟩ := h
    exact ⟨[], by simp⟩
  | succ fuel ih =>
    intro m n l m' n' l' hfresh h
    rw [allocate_main] at h
    cases hpop : pop_earliest_closing_trade l with
    | none =>
      rw [hpop] at h
      simp only [Except.ok.injEq, Prod.mk.injEq] at h
      obtain ⟨rfl, -, -⟩ := h
      exact ⟨[], by simp⟩
    | some cl =>
      obtain ⟨c, l2⟩ := cl
      rw [hpop] at h
      dsimp only at h
      cases hmatch : match_for_group l2 c cgt with
      | error e => rw [hmatch] at h; simp at h
      | ok gl =>
        obtain ⟨g, l3⟩ := gl
        rw [hmatch] at h
        dsimp only at h
        rw [dict_set_fresh hfresh] at h
        have hfresh2 : ∀ p ∈ m ++ [(n, g)], p.1 < n + 1 := by
          intro p hp
          rcases List.mem_append.mp hp with hpm | hpn
          · exact Nat.lt_succ_of_lt (hfresh p hpm)
          · rw [List.mem_singleton.mp hpn]
            exact Nat.lt_succ_self n
        obtain ⟨tail, htail⟩ := ih _ _ _ _ _ _ hfresh2 h
        exact ⟨[(n, g)] ++ tail, by simp [htail]⟩

theorem allocate_trades_cases {e : TaxCalcElement} {cgt : Bool} {e' : TaxCalcElement}
    (h : allocate_trades e cgt = .ok e') :
    ∃ m1 n1 l1,
      allocate_main cgt (e.unmatched.length + 1) e.matched 1 e.unmatched = .ok (m1, n1, l1) ∧
      ((¬ 0 < l1.length ∧ e' = ⟨m1, l1⟩) ∨
       (0 < l1.length ∧ final_position l1 ≠ 0 ∧ e' = ⟨m1, l1⟩) ∨
       (0 < l1.length ∧ final_position l1 = 0 ∧
         ∃ m2 n2 l2, allocate_leftover cgt (l1.length + 1) m1 n1 l1 = .ok (m2, n2, l2) ∧
           e' = ⟨m2, l2⟩)) := by
  unfold allocate_trades at h
  cases hmain : allocate_main cgt (e.unmatched.length + 1) e.matched 1 e.unmatched with
  | error err => rw [hmain] at h; simp at h
  | ok r =>
    obtain ⟨m1, n1, l1⟩ := r
    rw [hmain] at h
    dsimp only at h
    refine ⟨m1, n1, l1, rfl, ?_⟩
    by_cases hlen : 0 < l1.length
    · rw [if_pos hlen] at h
      by_cases hpos : final_position l1 = 0
      · rw [if_pos hpos] at h
        cases hleft : allocate_leftover cgt (l1.length + 1) m1 n1 l1 with
        | error err => rw [hleft] at h; simp at h
        | ok r2 =>
          obtain ⟨m2, n2, l2⟩ := r2
          rw [hleft] at h
          simp only [Except.ok.injEq] at h
          exact Or.inr (Or.inr ⟨hlen, hpos, m2, n2, l2, rfl, h.symm⟩)
      · rw [if_neg hpos] at h
        simp only [Except.ok.injEq] at h
        exact Or.inr (Or.inl ⟨hlen, hpos, h.symm⟩)
    · rw [if_neg hlen] at h
      simp only [Except.ok.injEq] at h
      exact Or.inl ⟨hlen, h.symm⟩

theorem check_same_code_iff (tl : List Trade) :
    check_same_code tl = true ↔ ∀ t1 ∈ tl, ∀ t2 ∈ tl, t1.Code = t2.Code := by
  cases tl with
  | nil => simp [check_same_code]
  | cons t rest =>
    simp only [check_same_code, List.all_eq_true, beq_iff_eq]
    constructor
    · intro h t1 ht1 t2 ht2
      have h1 : t1.Code = t.Code := by
        rcases List.mem_cons.mp ht1 with rfl | h1
        · rfl
        · exact h t1 h1
      have h2 : t2.Code = t.Code := by
        rcases List.mem_cons.mp ht2 with rfl | h2
        · rfl
        · exact h t2 h2
      rw [h1, h2]
    · intro h u hu
      exact h u (List.mem_cons_of_mem _ hu) t (List.mem_cons_self _ _)

theorem TaxTuple.add_zero (a : TaxTuple) : TaxTuple.add a zero_tax_tuple = a := by
  simp [TaxTuple.add, zero_tax_tuple]

theorem foldl_add_all_zero (l : List TaxTuple) :
    ∀ (acc : TaxTuple), (∀ x ∈ l, x = zero_tax_tuple) →
      l.foldl TaxTuple.add acc = acc := by
  induction l with
  | nil => intro acc _; rfl
  | cons x xs ih =>
    intro acc hall
    rw [List.foldl_cons, hall x (List.mem_cons_self _ _), TaxTuple.add_zero]
    exact ih acc (fun y hy => hall y (List.mem_cons_of_mem _ hy))

theorem sum_tax_tuples_all_zero {l : List TaxTuple}
    (h : ∀ x ∈ l, x = zero_tax_tuple) : sum_tax_tuples l = zero_tax_tuple :=
  foldl_add_all_zero l zero_tax_tuple h

theorem filter_pos_add_filter_neg_length (l : List ℚ) :
    (l.filter (fun x => decide (0 < x))).length +
      (l.filter (fun x => decide (x < 0))).length =
    (l.filter (fun x => x ≠ 0)).length := by
  induction l with
  | nil => simp
  | cons x xs ih =>
    rcases lt_trichotomy x 0 with hx | hx | hx
    · simp only [List.filter_cons]
      rw [if_neg (by simp [not_lt.mpr (le_of_lt hx)]), if_pos (by simpa using hx),
        if_pos (by simp [ne_of_lt hx])]
      simp only [List.length_cons]
      omega
    · subst hx
      simp only [List.filter_cons]
      rw [if_neg (by simp), if_neg (by simp), if_neg (by simp)]
      exact ih
    · simp only [List.filter_cons]
      rw [if_pos (by simpa using hx), if_neg (by simp [not_lt.mpr (le_of_lt hx)]),
        if_pos (by simp [ne_of_gt hx])]
      simp only [List.length_cons]
      omega

/-- C1: `match_for_group` applies the tiers in fixed order under the CGT
toggle — with CGT-style matching enabled it runs the same-day loop, then
the 30-day loop, then the pooled step with the final guard; with the
toggle off it runs only the pooled step with the final guard, so the
returned group has empty same-day and 30-day tiers and its pooled pieces
carry the closing trade's entire quantity. -/
theorem claim_C1 : ∀ (l : List Trade) (t : Trade),
    (match_for_group l t true =
      finalize_group t
        (within_month_loop t (same_day_loop t (TaxCalcTradeGroup.init t) l).1
          (same_day_loop t (TaxCalcTradeGroup.init t) l).2).1
        (within_month_loop t (same_day_loop t (TaxCalcTradeGroup.init t) l).1
          (same_day_loop t (TaxCalcTradeGroup.init t) l).2).2) ∧
    (match_for_group l t false = finalize_group t (TaxCalcTradeGroup.init t) l) ∧
    (∀ g l', match_for_group l t false = .ok (g, l') →
      g.same_day = [] ∧ g.within_month = [] ∧ sum_abs_qty g.s104 = |t.quantity|) := by
  intro l t
  refine ⟨match_for_group_true_eq l t, match_for_group_false_eq l t, ?_⟩
  intro g l' h
  have hspec := match_for_group_ok_spec h
  rw [match_for_group_false_eq] at h
  obtain ⟨hstep, -⟩ := finalize_group_ok h
  obtain ⟨-, hsd, hwm, -, -, -⟩ := s104_step_ok_spec hstep
  have hsd' : g.same_day = [] := hsd
  have hwm' : g.within_month = [] := hwm
  refine ⟨hsd', hwm', ?_⟩
  have hc0 : g.count_unmatched = 0 := hspec.2.1
  have hcl : g.closing_trade = t := hspec.1
  unfold TaxCalcTradeGroup.count_unmatched TaxCalcTradeGroup.count_matched at hc0
  rw [hsd', hwm', hcl] at hc0
  simp only [sum_abs_qty, List.map_nil, List.sum_nil] at hc0 ⊢
  linarith

theorem claim_C1_witness :
    gW.same_day = [] ∧ gW.within_month = [] ∧ sum_abs_qty gW.s104 = |tSell1.quantity| :=
  (claim_C1 [tBuy1] tSell1).2.2 gW [] (by with_unfolding_all rfl)

/-- C2: conservation — every group returned by `match_for_group`, and
hence every group recorded in the matched mapping by `allocate_trades`
on a freshly constructed element, is fully matched: the magnitudes of
its same-day, within-month and pooled pieces sum to the closing trade's
magnitude, and `is_unmatched` is false. -/
theorem claim_C2 :
    (∀ (l : List Trade) (t : Trade) (cgt : Bool) (g : TaxCalcTradeGroup) (l' : List Trade),
      match_for_group l t cgt = .ok (g, l') →
      sum_abs_qty g.same_day + sum_abs_qty g.within_month + sum_abs_qty g.s104 =
        |g.closing_trade.quantity| ∧ g.is_unmatched = false) ∧
    (∀ (tl : List Trade) (e : TaxCalcElement) (cgt : Bool) (e' : TaxCalcElement),
      TaxCalcElement.init tl = some e → allocate_trades e cgt = .ok e' →
      ∀ p ∈ e'.matched,
        sum_abs_qty p.2.same_day + sum_abs_qty p.2.within_month + sum_abs_qty p.2.s104 =
          |p.2.closing_trade.quantity| ∧ p.2.is_unmatched = false) := by
  have hML : ∀ (l : List Trade) (t : Trade) (cgt : Bool) (g : TaxCalcTradeGroup)
      (l' : List Trade), match_for_group l t cgt = .ok (g, l') →
      sum_abs_qty g.same_day + sum_abs_qty g.within_month + sum_abs_qty g.s104 =
        |g.closing_trade.quantity| ∧ g.is_unmatched = false := by
    intro l t cgt g l' h
    have hspec := match_for_group_ok_spec h
    have hc0 : g.count_unmatched = 0 := hspec.2.1
    refine ⟨?_, hspec.2.2.1⟩
    unfold TaxCalcTradeGroup.count_unmatched TaxCalcTradeGroup.count_matched at hc0
    linarith
  refine ⟨hML, ?_⟩
  intro tl e cgt e' hinit halloc
  have hmatched : e.matched = [] := by
    unfold TaxCalcElement.init at hinit
    by_cases hc : check_same_code tl = true
    · rw [if_pos hc] at hinit
      simp only [Option.some.injEq] at hinit
      rw [← hinit]
    · rw [if_neg hc] at hinit
      cases hinit
  obtain ⟨m1, n1, l1, hmain, hcases⟩ := allocate_trades_cases halloc
  have hm1 : ∀ p ∈ m1,
      sum_abs_qty p.2.same_day + sum_abs_qty p.2.within_month + sum_abs_qty p.2.s104 =
        |p.2.closing_trade.quantity| ∧ p.2.is_unmatched = false := by
    refine allocate_main_forall cgt _ (fun lc c g l2 hm => hML lc c cgt g l2 hm)
      _ _ _ _ _ _ _ ?_ hmain
    rw [hmatched]
    intro p hp
    cases hp
  rcases hcases with ⟨-, rfl⟩ | ⟨-, -, rfl⟩ | ⟨-, -, m2, n2, l2, hleft, rfl⟩
  · exact hm1
  · exact hm1
  · exact allocate_leftover_forall cgt _ (fun lc c g l2 hm => hML lc c cgt g l2 hm)
      _ _ _ _ _ _ _ hm1 hleft

theorem claim_C2_witness :
    sum_abs_qty gW.same_day + sum_abs_qty gW.within_month + sum_abs_qty gW.s104 =
      |gW.closing_trade.quantity| ∧ gW.is_unmatched = false :=
  claim_C2.1 [tBuy1] tSell1 false gW [] (by with_unfolding_all rfl)

/-- C5: an unmatchable closing trade is fatal — `match_for_group` never
returns a group that is still unmatched (a returned group has zero
unmatched quantity), and when it aborts with the unmatchable error it
reports the offending closing trade together with a strictly positive
unmatched quantity. -/
theorem claim_C5 : ∀ (l : List Trade) (t : Trade) (cgt : Bool),
    (∀ g l', match_for_group l t cgt = .ok (g, l') →
      g.is_unmatched = false ∧ g.count_unmatched = 0) ∧
    (∀ q c, match_for_group l t cgt = .error (.unmatchable q c) → c = t ∧ 0 < q) := by
  intro l t cgt
  constructor
  · intro g l' h
    have hspec := match_for_group_ok_spec h
    exact ⟨hspec.2.2.1, hspec.2.1⟩
  · intro q c h
    exact match_for_group_error_unmatchable h

theorem claim_C5_witness : tSell1 = tSell1 ∧ 0 < (100 : ℚ) :=
  (claim_C5 [] tSell1 true).2 100 tSell1 (by with_unfolding_all rfl)

/-- C3: the matching loop processes closing trades oldest-first — on a
fresh element the main loop of `allocate_trades` records its groups under
the consecutive keys 1, 2, …, their closing dates are nondecreasing (the
popped trade is always the chronologically earliest remaining Close), it
stops only when no closing trade remains, and the matched mapping only
ever grows (every successful run extends the initial mapping). -/
theorem claim_C3 : ∀ (cgt : Bool) (l : List Trade) (m' : List (Nat × TaxCalcTradeGroup))
    (n' : Nat) (l' : List Trade),
    allocate_main cgt (l.length + 1) [] 1 l = .ok (m', n', l') →
    m'.map (fun p => p.1) = List.range' 1 m'.length ∧
    List.Chain' (· ≤ ·) (m'.map (fun p => p.2.closing_trade.Date)) ∧
    pop_earliest_closing_trade l' = none ∧
    (∀ fuel m0 n0 l0 m1 n1 l1, (∀ p ∈ m0, p.1 < n0) →
      allocate_main cgt fuel m0 n0 l0 = .ok (m1, n1, l1) → ∃ tail, m1 = m0 ++ tail) := by
  intro cgt l m' n' l' h
  obtain ⟨hkeys, hn', -⟩ :=
    allocate_main_keys cgt (l.length + 1) [] 1 l m' n' l' (le_refl 1) (by simp) h
  have hlen : m'.length = n' - 1 := by
    have hcl := congrArg List.length hkeys
    simpa using hcl
  refine ⟨by rw [hkeys, hlen], ?_, ?_, ?_⟩
  · exact allocate_main_chain cgt (l.length + 1) [] 1 l m' n' l' (by simp) (by simp)
      (by simp) h
  · exact allocate_main_noclose cgt (l.length + 1) [] 1 l m' n' l' (by omega) h
  · intro fuel m0 n0 l0 m1 n1 l1 hf hok
    exact allocate_main_grow cgt fuel m0 n0 l0 m1 n1 l1 hf hok

theorem claim_C3_witness :
    [(1, gW)].map (fun p => p.1) = List.range' 1 ([(1, gW)].length) ∧
      pop_earliest_closing_trade ([] : List Trade) = none := by
  have h := claim_C3 false [tBuy1, tSell1] [(1, gW)] 2 [] (by with_unfolding_all rfl)
  exact ⟨h.1, h.2.2.1⟩

/-- C4: leftover-position resolution — once the main loop has exhausted
the trades typed Close, a remaining ledger with non-zero final position
is returned unmatched without error; with a final position of exactly
zero the leftover loop runs (date-sort, pop the chronologically last
trade, re-type it Close, match it through the same tier algorithm) until
the ledger is empty, and every group it adds has a Close-typed closing
trade. -/
theorem claim_C4 : ∀ (e : TaxCalcElement) (cgt : Bool)
    (m1 : List (Nat × TaxCalcTradeGroup)) (n1 : Nat) (l1 : List Trade),
    allocate_main cgt (e.unmatched.length + 1) e.matched 1 e.unmatched = .ok (m1, n1, l1) →
    (0 < l1.length → final_position l1 ≠ 0 → allocate_trades e cgt = .ok ⟨m1, l1⟩) ∧
    (0 < l1.length → final_position l1 = 0 →
      allocate_trades e cgt =
        match allocate_leftover cgt (l1.length + 1) m1 n1 l1 with
        | .error err => .error err
        | .ok (m2, _, l2) => Except.ok ⟨m2, l2⟩) ∧
    (∀ e', allocate_trades e cgt = .ok e' → final_position l1 = 0 → e'.unmatched = []) ∧
    (∀ m2 n2 l2, allocate_leftover cgt (l1.length + 1) m1 n1 l1 = .ok (m2, n2, l2) →
      ∀ p ∈ m2, p ∈ m1 ∨ p.2.closing_trade.tradetype = TType.Close) := by
  intro e cgt m1 n1 l1 hmain
  refine ⟨?_, ?_, ?_, ?_⟩
  · intro hlen hpos
    unfold allocate_trades
    rw [hmain]
    dsimp only
    rw [if_pos hlen, if_neg hpos]
  · intro hlen hpos
    unfold allocate_trades
    rw [hmain]
    dsimp only
    rw [if_pos hlen, if_pos hpos]
  · intro e' halloc hpos
    obtain ⟨m1', n1', l1', hmain', hcases⟩ := allocate_trades_cases halloc
    rw [hmain] at hmain'
    simp only [Except.ok.injEq, Prod.mk.injEq] at hmain'
    obtain ⟨rfl, rfl, rfl⟩ := hmain'
    rcases hcases with ⟨hnlen, rfl⟩ | ⟨hlen, hne, rfl⟩ | ⟨hlen, hzero, m2, n2, l2, hleft, rfl⟩
    · have : l1 = [] := by
        cases l1 with
        | nil => rfl
        | cons a as => exact absurd (by simp) hnlen
      exact this
    · exact absurd hpos hne
    · exact allocate_leftover_empty cgt (l1.length + 1) m1 n1 l1 m2 n2 l2
        (by omega) hleft
  · intro m2 n2 l2 hleft
    exact allocate_leftover_new cgt (l1.length + 1) m1 n1 l1 m2 n2 l2 hleft

theorem claim_C4_witness :
    (⟨[(1, gLeft)], []⟩ : TaxCalcElement).unmatched = [] ∧
      allocate_trades ⟨[], [oBuy]⟩ true = .ok ⟨[], [oBuy]⟩ := by
  have h := claim_C4 ⟨[], [oBuy, oSell]⟩ true [] 1 [oBuy, oSell] (by with_unfolding_all rfl)
  have h2 := claim_C4 ⟨[], [oBuy]⟩ true [] 1 [oBuy] (by with_unfolding_all rfl)
  refine ⟨?_, ?_⟩
  · exact h.2.2.1 ⟨[(1, gLeft)], []⟩ (by with_unfolding_all rfl) (by with_unfolding_all rfl)
  · exact h2.1 (by simp) (by with_unfolding_all decide)

theorem group_display_taxes_out_of_year {taxyear : Nat} {g : TaxCalcTradeGroup}
    (h : which_tax_year g.closing_trade.Date ≠ taxyear) :
    group_display_taxes taxyear g = zero_tax_tuple := by
  unfold group_display_taxes
  rw [if_neg (by simpa using h)]

/-- C6: determinism — `allocate_dict_trades` run twice on identical
input with the same CGT toggle produces identical results, and hence
identical match-group mappings and identical financial tuples. -/
theorem claim_C6 : ∀ (d1 d2 : TaxCalcDict) (cgt : Bool) (taxyear : Nat), d1 = d2 →
    allocate_dict_trades d1 cgt = allocate_dict_trades d2 cgt ∧
    (∀ r1 r2, allocate_dict_trades d1 cgt = .ok r1 → allocate_dict_trades d2 cgt = .ok r2 →
      r1 = r2 ∧
      r1.map (fun p => display_taxes_for_code p.2 taxyear) =
        r2.map (fun p => display_taxes_for_code p.2 taxyear)) := by
  intro d1 d2 cgt taxyear h
  subst h
  refine ⟨rfl, ?_⟩
  intro r1 r2 h1 h2
  rw [h1] at h2
  injection h2 with h2
  exact ⟨h2, by rw [h2]⟩

theorem claim_C6_witness :
    allocate_dict_trades [("X", ⟨[], [tBuy1, tSell1]⟩)] true =
      allocate_dict_trades [("X", ⟨[], [tBuy1, tSell1]⟩)] true :=
  (claim_C6 [("X", ⟨[], [tBuy1, tSell1]⟩)] [("X", ⟨[], [tBuy1, tSell1]⟩)] true 2022 rfl).1

/-- C7: a per-code matcher built from trades of more than one instrument
code is rejected at construction (`TaxCalcElement.init` returns none);
construction succeeds only when all trades share one code, and then
starts with an empty matched mapping and the full trade list. -/
theorem claim_C7 : ∀ (tl : List Trade),
    ((∃ t1 ∈ tl, ∃ t2 ∈ tl, t1.Code ≠ t2.Code) → TaxCalcElement.init tl = none) ∧
    (∀ e, TaxCalcElement.init tl = some e →
      (∀ t1 ∈ tl, ∀ t2 ∈ tl, t1.Code = t2.Code) ∧ e.matched = [] ∧ e.unmatched = tl) := by
  intro tl
  constructor
  · intro hex
    obtain ⟨t1, h1, t2, h2, hne⟩ := hex
    unfold TaxCalcElement.init
    have hc : ¬ (check_same_code tl = true) := by
      intro hc
      exact hne ((check_same_code_iff tl).mp hc t1 h1 t2 h2)
    rw [if_neg hc]
  · intro e he
    unfold TaxCalcElement.init at he
    by_cases hc : check_same_code tl = true
    · rw [if_pos hc] at he
      simp only [Option.some.injEq] at he
      subst he
      exact ⟨(check_same_code_iff tl).mp hc, rfl, rfl⟩
    · rw [if_neg hc] at he
      cases he

theorem claim_C7_witness : TaxCalcElement.init [tCodeA, tCodeB] = none :=
  (claim_C7 [tCodeA, tCodeB]).1 (by with_unfolding_all decide)

/-- C8: `average_commission` returns total commission divided by twice
the total matched quantity when the aggregate quantity is non-zero; with
zero aggregate quantity it does not divide but returns the not-a-number
no-data value when the total commission is also zero, and zero when the
commission is non-zero. -/
theorem claim_C8 : ∀ (e : TaxCalcElement) (taxyear : Nat),
    (average_commission_total_quant e taxyear ≠ 0 →
      average_commission e taxyear =
        .val (average_commission_total_comm e taxyear /
          (2 * average_commission_total_quant e taxyear))) ∧
    (average_commission_total_quant e taxyear = 0 →
      average_commission_total_comm e taxyear = 0 →
      average_commission e taxyear = .nan) ∧
    (average_commission_total_quant e taxyear = 0 →
      average_commission_total_comm e taxyear ≠ 0 →
      average_commission e taxyear = .val 0) := by
  intro e taxyear
  refine ⟨?_, ?_, ?_⟩
  · intro hq
    unfold average_commission
    rw [if_neg hq]
  · intro hq hc
    unfold average_commission
    rw [if_pos hq, if_pos hc]
  · intro hq hc
    unfold average_commission
    rw [if_pos hq, if_neg hc]

theorem claim_C8_witness : average_commission e0 2022 = NFloat.nan :=
  (claim_C8 e0 2022).2.1 (by with_unfolding_all rfl) (by with_unfolding_all rfl)

/-- C9: a per-code tax report for a tax year in which the code has no
closing trades is the defined all-zero tuple, not an error; in
particular an element with an empty matched mapping reports the zero
tuple. -/
theorem claim_C9 : ∀ (e : TaxCalcElement) (taxyear : Nat),
    (e.matched = [] → display_taxes_for_code e taxyear = zero_tax_tuple) ∧
    ((∀ p ∈ e.matched, which_tax_year p.2.closing_trade.Date ≠ taxyear) →
      display_taxes_for_code e taxyear = zero_tax_tuple) := by
  intro e taxyear
  have hzero : (∀ p ∈ e.matched, which_tax_year p.2.closing_trade.Date ≠ taxyear) →
      ∀ x ∈ element_taxdata e taxyear, x = zero_tax_tuple := by
    intro hall x hx
    obtain ⟨p, hp, hpx⟩ := List.mem_map.mp hx
    have hpm : p ∈ e.matched := (mem_sort_le _ _ _).mp hp
    rw [← hpx]
    exact group_display_taxes_out_of_year (hall p hpm)
  constructor
  · intro hm
    unfold display_taxes_for_code
    rw [if_pos]
    unfold element_taxdata sorted_matched
    rw [hm]
    rfl
  · intro hall
    unfold display_taxes_for_code
    by_cases hlen : (element_taxdata e taxyear).length = 0
    · rw [if_pos hlen]
    · rw [if_neg hlen]
      exact sum_tax_tuples_all_zero (hzero hall)

theorem claim_C9_witness : display_taxes_for_code ⟨[(1, gW)], []⟩ 2022 = zero_tax_tuple :=
  (claim_C9 ⟨[(1, gW)], []⟩ 2022).2 (by with_unfolding_all decide)

/-- C10: `win_loss_ratio_etc` partitions the individual per-group net
profits into strictly positive wins and strictly negative losses —
profits equal to zero land in neither bucket, the two counts sum to the
number of non-zero profits (and so can be below the number of match
groups), and the averages are the means of the strict buckets only. -/
theorem claim_C10 : ∀ (d : TaxCalcDict) (tax_year : Nat),
    (win_loss_ratio_etc d tax_year).2.2.1 + (win_loss_ratio_etc d tax_year).2.2.2 =
        ((individual_profits d tax_year).filter (fun x => x ≠ 0)).length ∧
    (win_loss_ratio_etc d tax_year).2.2.1 + (win_loss_ratio_etc d tax_year).2.2.2 ≤
        (individual_profits d tax_year).length ∧
    (∀ x ∈ individual_profits d tax_year, x = 0 →
      x ∉ (individual_profits d tax_year).filter (fun x => decide (0 < x)) ∧
      x ∉ (individual_profits d tax_year).filter (fun x => decide (x < 0))) ∧
    (win_loss_ratio_etc d tax_year).1 =
      np_mean ((individual_profits d tax_year).filter (fun x => decide (0 < x))) ∧
    (win_loss_ratio_etc d tax_year).2.1 =
      np_mean ((individual_profits d tax_year).filter (fun x => decide (x < 0))) := by
  intro d tax_year
  have hcount := filter_pos_add_filter_neg_length (individual_profits d tax_year)
  refine ⟨hcount, ?_, ?_, rfl, rfl⟩
  · exact le_trans (le_of_eq hcount) (List.length_filter_le _ _)
  · intro x hx hx0
    subst hx0
    constructor
    · intro hmem
      have := (List.mem_filter.mp hmem).2
      simp at this
    · intro hmem
      have := (List.mem_filter.mp hmem).2
      simp at this

theorem claim_C10_witness :
    ((0 : ℚ) ∉ (individual_profits dW 1970).filter (fun x => decide (0 < x)) ∧
      (0 : ℚ) ∉ (individual_profits dW 1970).filter (fun x => decide (x < 0))) ∧
    (win_loss_ratio_etc dW 1970).2.2.1 + (win_loss_ratio_etc dW 1970).2.2.2 = 2 := by
  have h := claim_C10 dW 1970
  refine ⟨h.2.2.1 0 (by with_unfolding_all decide) rfl, ?_⟩
  rw [h.1]
  with_unfolding_all rfl
